import Mathlib

/-!
Shallow embedding of the yals game core (hex board, unit catalog, region
engine, rule engine, turn resolution, history manager), translated from
`src/server/game/{units,board,player,rules,state}.py` and
`src/server/game/history/{snapshot,manager}.py`, together with proofs of
the specification claims about it.

Python's mutable `Hex` objects (compared by coordinate only) are modelled
by an explicit `Board` holding a list of hex records; regions hold
coordinate lists and read hex data through the board, which matches the
source's aliased `Hex` references.  Gold amounts are `Int` (Python ints),
unit strengths are `Nat`.
-/

namespace Yals

/-- Axial coordinate of a hex (`(q, r)`). -/
abbrev Coord := Int × Int

/-! ## Unit catalog (`units.py`) -/

inductive Terrain
  | land
  | sea
  | tree
  | grave
deriving DecidableEq, Repr

inductive UnitType
  | peasant
  | spearman
  | knight
  | baron
  | castle
deriving DecidableEq, Repr

/-- `UNIT_STATS[t]["strength"]`. -/
def UnitType.strength : UnitType → Nat
  | .peasant => 1
  | .spearman => 2
  | .knight => 3
  | .baron => 4
  | .castle => 2

/-- `UNIT_STATS[t]["cost"]`. -/
def UnitType.cost : UnitType → Int
  | .peasant => 10
  | .spearman => 20
  | .knight => 30
  | .baron => 40
  | .castle => 15

/-- `UNIT_STATS[t]["upkeep"]`. -/
def UnitType.upkeep : UnitType → Int
  | .peasant => 2
  | .spearman => 6
  | .knight => 18
  | .baron => 54
  | .castle => 0

/-- `UPGRADE_PATH`: two units of the same type merge into the next level. -/
def UPGRADE_PATH : UnitType → Option UnitType
  | .peasant => some .spearman
  | .spearman => some .knight
  | .knight => some .baron
  | .baron => none
  | .castle => none

/-- The source's `Unit` dataclass (named `GameUnit` here because `Unit` is a
core Lean type). -/
structure GameUnit where
  type : UnitType
  owner : Nat
  has_moved : Bool := false
deriving DecidableEq, Repr

def GameUnit.strength (u : GameUnit) : Nat := u.type.strength

def GameUnit.cost (u : GameUnit) : Int := u.type.cost

def GameUnit.upkeep (u : GameUnit) : Int := u.type.upkeep

/-- `Unit.is_mobile`: castles cannot move. -/
def GameUnit.is_mobile (u : GameUnit) : Bool := u.type ≠ UnitType.castle

/-- `Unit.can_kill`. -/
def GameUnit.can_kill (u other : GameUnit) : Bool := u.strength > other.strength

/-- `Unit.can_merge_with`: same type, same owner, mobile, upgradeable. -/
def GameUnit.can_merge_with (u other : GameUnit) : Bool :=
  u.type = other.type && u.owner = other.owner && u.is_mobile &&
    (UPGRADE_PATH u.type).isSome

/-- `Unit.merge`: merge two units into the upgraded unit. -/
def GameUnit.merge (u1 u2 : GameUnit) : Option GameUnit :=
  if u1.can_merge_with u2 then
    match UPGRADE_PATH u1.type with
    | none => none
    | some new_type => some { type := new_type, owner := u1.owner, has_moved := true }
  else
    none

/-- `Unit.reset_for_turn`. -/
def GameUnit.reset_for_turn (u : GameUnit) : GameUnit := { u with has_moved := false }

/-! ## Board (`board.py`) -/

/-- The source's `Hex` dataclass.  Python compares hexes by coordinate only;
here hexes are plain records and the board's coordinate list is kept
duplicate-free by the well-formedness predicate below. -/
structure Hex where
  q : Int
  r : Int
  terrain : Terrain := Terrain.land
  owner : Option Nat := none
  unit : Option GameUnit := none
deriving DecidableEq, Repr

def Hex.coord (h : Hex) : Coord := (h.q, h.r)

/-- `HEX_DIRECTIONS`. -/
def HEX_DIRECTIONS : List Coord :=
  [(1, 0), (1, -1), (0, -1), (-1, 0), (-1, 1), (0, 1)]

/-- The source's `Board`.  The hex dict is modelled by an insertion-ordered
list of hex records. -/
structure Board where
  width : Nat
  height : Nat
  hexes : List Hex
deriving DecidableEq, Repr

/-- `Board.get(q, r)`. -/
def Board.get (b : Board) (q r : Int) : Option Hex :=
  b.hexes.find? (fun h => h.q = q && h.r = r)

def Board.getC (b : Board) (c : Coord) : Option Hex := b.get c.1 c.2

/-- Owner of the hex at a coordinate (`none` when the hex is missing or
unowned). -/
def Board.ownerAt (b : Board) (c : Coord) : Option Nat :=
  match b.getC c with
  | none => none
  | some h => h.owner

/-- `Board.neighbors`. -/
def Board.neighbors (b : Board) (h : Hex) : List Hex :=
  HEX_DIRECTIONS.filterMap (fun d => b.get (h.q + d.1) (h.r + d.2))

/-- `Board.get_territory`. -/
def Board.get_territory (b : Board) (player_id : Nat) : List Hex :=
  b.hexes.filter (fun h => h.owner = some player_id)

/-- Replace the hex at coordinate `c` (Python mutates the aliased `Hex`
object in place). -/
def Board.setAt (b : Board) (c : Coord) (f : Hex → Hex) : Board :=
  { b with hexes := b.hexes.map (fun h => if h.q = c.1 && h.r = c.2 then f h else h) }

/-- Same-owner neighbor coordinates that the flood fill pushes from a hex. -/
def Board.floodPushes (b : Board) (owner : Nat) (visited : List Coord) (h : Hex) :
    List Coord :=
  (b.neighbors h).filterMap (fun n =>
    if n.coord ∉ visited && n.owner = some owner then some n.coord else none)

/-- The `while to_visit:` loop of `Board.get_region`, with an explicit fuel
argument as a termination artifact: each iteration pops one stack entry, and
a first visit pushes at most six, so fuel `7 * |hexes| + |stack|` always
suffices (see `floodLoop_measure`). -/
def Board.floodLoop (b : Board) (owner : Nat) :
    Nat → List Coord → List Coord → List Coord
  | 0, visited, _ => visited
  | _ + 1, visited, [] => visited
  | fuel + 1, visited, c :: rest =>
    if c ∈ visited then
      b.floodLoop owner fuel visited rest
    else
      match b.getC c with
      | none => b.floodLoop owner fuel visited rest
      | some h =>
        if h.owner = some owner then
          b.floodLoop owner fuel (c :: visited) (b.floodPushes owner visited h ++ rest)
        else
          b.floodLoop owner fuel visited rest

/-- Fuel that is always sufficient for `floodLoop` starting from one seed. -/
def Board.floodFuel (b : Board) : Nat := 7 * b.hexes.length + 1

/-- `Board.get_region(start)`: all connected hexes of the same owner,
starting from `start` (returned as a list of coordinates; the source returns
a set of hexes). -/
def Board.get_region (b : Board) (start : Hex) : List Coord :=
  match start.owner with
  | none => []
  | some owner => b.floodLoop owner b.floodFuel [] [start.coord]

/-- The `for h in territory:` loop of `Board.get_regions`. -/
def Board.getRegionsLoop (b : Board) : List Hex → List Coord → List (List Coord)
  | [], _ => []
  | h :: rest, visited =>
    if h.coord ∈ visited then
      b.getRegionsLoop rest visited
    else
      let reg := b.get_region h
      reg :: b.getRegionsLoop rest (visited ++ reg)

/-- `Board.get_regions(player_id)`: all distinct regions of a player. -/
def Board.get_regions (b : Board) (player_id : Nat) : List (List Coord) :=
  b.getRegionsLoop (b.get_territory player_id) []

/-- Well-formed board: at most one hex per coordinate. -/
def Board.WF (b : Board) : Prop := (b.hexes.map Hex.coord).Nodup

/-- Unit sitting at a coordinate, if any. -/
def Board.unitAt (b : Board) (c : Coord) : Option GameUnit :=
  match b.getC c with
  | none => none
  | some h => h.unit

/-- Terrain at a coordinate, if the hex exists. -/
def Board.terrainAt (b : Board) (c : Coord) : Option Terrain :=
  match b.getC c with
  | none => none
  | some h => h.terrain

/-- Upkeep of the unit at a coordinate (`0` when empty). -/
def Board.upkeepAt (b : Board) (c : Coord) : Int :=
  match b.unitAt c with
  | none => 0
  | some u => u.upkeep

/-! ## Region and Player (`player.py`) -/

/-- The source's `Region` dataclass.  Its `hexes` set of aliased `Hex`
objects is modelled as a list of coordinates; hex attributes are read
through the board. -/
structure Region where
  hexes : List Coord
  has_capital : Bool
  gold : Int := 0
deriving DecidableEq, Repr

/-- Lexicographic order on `(q, r)` used by Python's `min(..., key=(h.q, h.r))`. -/
def coordLexLt (a b : Coord) : Bool := a.1 < b.1 || (a.1 = b.1 && a.2 < b.2)

/-- First lexicographically smallest coordinate of a list (Python's `min`
returns the first minimum). -/
def minCoord : List Coord → Option Coord
  | [] => none
  | c :: rest => some (rest.foldl (fun acc x => if coordLexLt x acc then x else acc) c)

/-- `Region.capital_hex`: the deterministic capital hex (lowest `(q, r)`),
when the region has a capital. -/
def Region.capital_hex (r : Region) : Option Coord :=
  if !r.has_capital then none else minCoord r.hexes

/-- `Region.income`: number of non-tree/non-grave hexes, at least 1 with a
capital. -/
def Region.income (r : Region) (b : Board) : Int :=
  let base : Int := (r.hexes.filter (fun c =>
    match b.terrainAt c with
    | some t => decide (t ≠ Terrain.tree ∧ t ≠ Terrain.grave)
    | none => false)).length
  if r.has_capital then max 1 base else base

/-- `Region.max_gold`: unlimited (999999) with capital, 10 without. -/
def Region.max_gold (r : Region) : Int := if r.has_capital then 999999 else 10

/-- `Region.has_castle`. -/
def Region.has_castle (r : Region) (b : Board) : Bool :=
  r.hexes.any (fun c =>
    match b.unitAt c with
    | some u => u.type = UnitType.castle
    | none => false)

/-- `Region.get_territory_maintenance`: `max(0, hexes - 1)`. -/
def Region.get_territory_maintenance (r : Region) : Int :=
  max 0 ((r.hexes.length : Int) - 1)

/-- `Region.get_upkeep`: total upkeep of the units in the region. -/
def Region.get_upkeep (r : Region) (b : Board) : Int :=
  r.hexes.foldl (fun total c => total + b.upkeepAt c) 0

/-- `Region.collect_income`. -/
def Region.collect_income (r : Region) (b : Board) : Region :=
  { r with gold := min (r.gold + r.income b) r.max_gold }

/-- Stable insertion into a list sorted by unit upkeep (model of Python's
stable `sorted(key=lambda h: h.unit.upkeep)`). -/
def insertByUpkeep (b : Board) (c : Coord) : List Coord → List Coord
  | [] => [c]
  | x :: xs =>
    if b.upkeepAt c ≤ b.upkeepAt x then c :: x :: xs else x :: insertByUpkeep b c xs

/-- Sort coordinates by the upkeep of the unit sitting on them. -/
def sortByUpkeep (b : Board) : List Coord → List Coord
  | [] => []
  | c :: cs => insertByUpkeep b c (sortByUpkeep b cs)

/-- The starvation `while` loop of `Region.pay_upkeep`: pop the
weakest-upkeep unit while the remaining gold does not cover the remaining
upkeep; each popped unit is removed and its hex becomes a grave.  Returns
the updated board, the starved hexes in order, and the final
`unit_upkeep_to_pay`. -/
def starveLoop (b : Board) (units : List Coord) (remaining_gold to_pay : Int) :
    Board × List Coord × Int :=
  match units with
  | [] => (b, [], to_pay)
  | c :: rest =>
    if remaining_gold < to_pay then
      let to_pay' := to_pay - b.upkeepAt c
      let b' := b.setAt c (fun h => { h with unit := none, terrain := Terrain.grave })
      let res := starveLoop b' rest remaining_gold to_pay'
      (res.1, c :: res.2.1, res.2.2)
    else
      (b, [], to_pay)

/-- `Region.pay_upkeep`: pay territory maintenance plus unit upkeep,
starving weakest units first when gold is short; returns the hexes whose
units starved. -/
def Region.pay_upkeep (r : Region) (b : Board) : Region × Board × List Coord :=
  let territory_cost := r.get_territory_maintenance
  let unit_upkeep := r.get_upkeep b
  let total_cost := territory_cost + unit_upkeep
  if r.gold ≥ total_cost then
    ({ r with gold := r.gold - total_cost }, b, [])
  else if r.gold ≥ territory_cost then
    let remaining_gold := r.gold - territory_cost
    let units_by_upkeep := sortByUpkeep b (r.hexes.filter (fun c => (b.unitAt c).isSome))
    let res := starveLoop b units_by_upkeep remaining_gold unit_upkeep
    ({ r with gold := max 0 (remaining_gold - res.2.2) }, res.1, res.2.1)
  else
    -- defensive fallback: cannot even afford territory maintenance
    ({ r with gold := 0 }, b, [])

/-- The source's `Player` dataclass (display colors omitted). -/
structure Player where
  id : Nat
  eliminated : Bool := false
  regions : List Region := []
deriving DecidableEq, Repr

/-- The gold-preservation scan of `Player.update_regions`: for each hex of
the new region, add the gold of the first not-yet-seen old region containing
it (`seen` holds indices of already counted old regions, mirroring the
source's `id(old_r)` set). -/
def sumOldGoldLoop (old : List Region) : List Coord → List Nat → Int → Int
  | [], _, acc => acc
  | c :: rest, seen, acc =>
    match old.enum.find? (fun e => decide (c ∈ e.2.hexes) && decide (e.1 ∉ seen)) with
    | some e => sumOldGoldLoop old rest (e.1 :: seen) (acc + e.2.gold)
    | none => sumOldGoldLoop old rest seen acc

/-- `Player.update_regions`: recompute the regions from the board, give a
capital to every component of 2+ hexes, and carry the gold of the old
regions that intersect each new region (capped at the new storage limit). -/
def Player.update_regions (p : Player) (b : Board) : Player :=
  let old := p.regions
  let region_sets := b.get_regions p.id
  { p with regions := region_sets.map (fun hex_set =>
      let has_capital : Bool := decide (hex_set.length ≥ 2)
      let region : Region := { hexes := hex_set, has_capital := has_capital }
      let total_old_gold := sumOldGoldLoop old hex_set [] 0
      { region with gold := min total_old_gold region.max_gold }) }

/-- Kill every hex of a dying territory: units leave graves, ownership is
cleared (the inner loop of `check_castle_requirement` and
`check_territory_maintenance`). -/
def killRegionHexes (b : Board) (hexes : List Coord) : Board :=
  hexes.foldl (fun b c => b.setAt c (fun h =>
    if h.unit.isSome then { h with terrain := Terrain.grave, unit := none, owner := none }
    else { h with owner := none })) b

/-- A territory death record (`region_size`, `hexes`). -/
structure RegionDeath where
  region_size : Nat
  hexes : List Coord
deriving DecidableEq, Repr

/-- A maintenance death record (adds `needed`/`had`). -/
structure MaintenanceDeath where
  region_size : Nat
  hexes : List Coord
  needed : Int
  had : Int
deriving DecidableEq, Repr

/-- `Player.check_castle_requirement`: every region without a castle dies in
full and is removed from the region list. -/
def Player.check_castle_requirement (p : Player) (b : Board) :
    Player × Board × List RegionDeath :=
  let step := p.regions.foldl
    (fun (st : Board × List Region × List RegionDeath) region =>
      if region.has_castle st.1 then
        (st.1, st.2.1 ++ [region], st.2.2)
      else
        (killRegionHexes st.1 region.hexes, st.2.1,
         st.2.2 ++ [{ region_size := region.hexes.length, hexes := region.hexes }]))
    (b, [], [])
  ({ p with regions := step.2.1 }, step.1, step.2.2)

/-- `Player.check_territory_maintenance`: every region whose gold does not
cover territory maintenance plus unit upkeep dies in full and is removed
from the region list. -/
def Player.check_territory_maintenance (p : Player) (b : Board) :
    Player × Board × List MaintenanceDeath :=
  let step := p.regions.foldl
    (fun (st : Board × List Region × List MaintenanceDeath) region =>
      let territory_cost := region.get_territory_maintenance
      let unit_upkeep := region.get_upkeep st.1
      let total_cost := territory_cost + unit_upkeep
      if region.gold < total_cost then
        (killRegionHexes st.1 region.hexes, st.2.1,
         st.2.2 ++ [{ region_size := region.hexes.length, hexes := region.hexes,
                      needed := total_cost, had := region.gold }])
      else
        (st.1, st.2.1 ++ [region], st.2.2))
    (b, [], [])
  ({ p with regions := step.2.1 }, step.1, step.2.2)

/-- `Player.kill_isolated_units`: units in capital-less regions die and
leave graves (the region list itself is not modified). -/
def Player.kill_isolated_units (p : Player) (b : Board) :
    Board × List (Coord × UnitType) :=
  p.regions.foldl
    (fun (st : Board × List (Coord × UnitType)) region =>
      if region.has_capital then st
      else region.hexes.foldl
        (fun (st : Board × List (Coord × UnitType)) c =>
          match st.1.unitAt c with
          | some u =>
            (st.1.setAt c (fun h => { h with unit := none, terrain := Terrain.grave }),
             st.2 ++ [(c, u.type)])
          | none => st)
        st)
    (b, [])

/-- `Player.start_turn`: collect income for every region. -/
def Player.start_turn (p : Player) (b : Board) : Player :=
  { p with regions := p.regions.map (fun r => r.collect_income b) }

/-- Serialized form of a player (`Player.to_dict`); the source's derived
display statistics are omitted, `region_gold` keys each region's gold by its
representative (lowest-coordinate) hex. -/
structure PlayerData where
  id : Nat
  eliminated : Bool
  region_gold : List (Coord × Int)
deriving DecidableEq, Repr

/-- `Player.to_dict`. -/
def Player.to_dict (p : Player) : PlayerData :=
  { id := p.id
    eliminated := p.eliminated
    region_gold := p.regions.filterMap (fun r =>
      match minCoord r.hexes with
      | some rep => some (rep, r.gold)
      | none => none) }

/-- `Player.from_dict`: rebuild the regions from the board, then restore
each region's gold through its representative hex. -/
def Player.from_dict (d : PlayerData) (b : Board) : Player :=
  let p : Player := { id := d.id, eliminated := d.eliminated, regions := [] }
  let p := p.update_regions b
  { p with regions := p.regions.map (fun r =>
      match minCoord r.hexes with
      | some rep =>
        match d.region_gold.find? (fun e => e.1 = rep) with
        | some e => { r with gold := e.2 }
        | none => r
      | none => r) }

/-! ## Rule engine (`rules.py`) and game state (`state.py`)

The source's `GameRules` object holds references to the same board and
player list as `GameState`; both are modelled by one `GState` record that
rule functions thread explicitly. -/

/-- §3 `GameState`: grid, players, current player index, turn counter and
tree-growth configuration (the transient per-turn action display list is
omitted). -/
structure GState where
  board : Board
  players : List Player
  current_player_idx : Nat := 0
  turn : Nat := 1
  tree_growth_enabled : Bool := true
  tree_spread_threshold : Nat := 2
deriving DecidableEq, Repr

/-- `GameRules.get_player`. -/
def GState.get_player (s : GState) (player_id : Nat) : Option Player :=
  s.players.find? (fun p => p.id = player_id)

/-- Apply `f` to the player with the given id. -/
def GState.updatePlayer (s : GState) (player_id : Nat) (f : Player → Player) : GState :=
  { s with players := s.players.map (fun p => if p.id = player_id then f p else p) }

/-- `GameRules.get_region_for_hex` together with the region's position in
the player's region list (the source returns the aliased `Region` object;
the index stands in for that object identity). -/
def Player.regionEntryForHex (p : Player) (c : Coord) : Option (Nat × Region) :=
  p.regions.enum.find? (fun e => decide (c ∈ e.2.hexes))

/-- `GameRules.get_region_for_hex`. -/
def Player.get_region_for_hex (p : Player) (c : Coord) : Option Region :=
  (p.regionEntryForHex c).map (fun e => e.2)

/-- `GameRules.get_defense_strength`: maximum over the unit on the hex, a
capital on the hex (1), adjacent same-owner capitals (1) and adjacent
same-owner units. -/
def GState.get_defense_strength (s : GState) (target_hex : Hex) : Nat :=
  match target_hex.owner with
  | none => 0
  | some owner =>
    let player := s.get_player owner
    -- unit on the hex itself
    let d1 : Nat := match target_hex.unit with
      | some u => max 0 u.strength
      | none => 0
    -- capital on the hex itself (strength 1)
    let d2 : Nat := match player with
      | some p =>
        match p.get_region_for_hex target_hex.coord with
        | some region =>
          if region.capital_hex = some target_hex.coord then max d1 1 else d1
        | none => d1
      | none => d1
    -- adjacent defenders
    (s.board.neighbors target_hex).foldl (fun md neighbor =>
      if neighbor.owner = some owner then
        let md1 : Nat := match player with
          | some p =>
            match p.get_region_for_hex neighbor.coord with
            | some region =>
              if region.capital_hex = some neighbor.coord then max md 1 else md
            | none => md
          | none => md
        match neighbor.unit with
        | some nu => if nu.owner = owner then max md1 nu.strength else md1
        | none => md1
      else md) d2

/-- Python's `to_hex in board.neighbors(from_hex)` (hexes compare by
coordinate). -/
def hexMemByCoord (t : Hex) (l : List Hex) : Bool :=
  l.any (fun n => n.q = t.q && n.r = t.r)

/-- `GameRules.can_move`. -/
def GState.can_move (s : GState) (player_id : Nat) (from_hex to_hex : Hex) :
    Bool × String :=
  match from_hex.unit with
  | none => (false, "No unit on source hex")
  | some u =>
    if u.owner ≠ player_id then
      (false, "Unit does not belong to player")
    else if !u.is_mobile then
      (false, "Castles cannot move")
    else if !hexMemByCoord to_hex (s.board.neighbors from_hex) then
      (false, "Target hex is not adjacent")
    else if to_hex.terrain = Terrain.sea then
      (false, "Cannot move to sea")
    else if (to_hex.terrain = Terrain.tree ∨ to_hex.terrain = Terrain.grave) ∧
        to_hex.owner = some player_id then
      if u.has_moved then (false, "Unit already acted this turn") else (true, "OK")
    else if to_hex.owner = some player_id then
      match to_hex.unit with
      | some tu =>
        if u.can_merge_with tu then (true, "OK")
        else (false, "Hex occupied (can merge same unit types)")
      | none => (true, "OK")
    else if u.has_moved then
      (false, "Unit already attacked this turn")
    else
      match to_hex.owner with
      | some _ =>
        if u.strength ≤ s.get_defense_strength to_hex then
          (false, "Defense too strong")
        else (true, "OK")
      | none => (true, "OK")

/-- Result record of `GameRules.execute_move`. -/
structure MoveResult where
  success : Bool
  message : String
  killed_unit : Option GameUnit := none
  merged_into : Option GameUnit := none
  conquered_hex : Bool := false
deriving DecidableEq, Repr

/-- Tail of `GameRules.execute_move` after the merge branch: tree chopping /
grave clearing, the move itself, and on an attack the conquest plus region
recomputation for both affected players.  `t1` is the target hex after the
combat step. -/
def GState.moveFinish (s : GState) (player_id : Nat) (from_hex t1 : Hex)
    (u : GameUnit) (killed_unit : Option GameUnit) : GState × MoveResult :=
  -- tree chopping / grave clearing (counts as the unit's action)
  let chop := t1.terrain = Terrain.tree ∨ t1.terrain = Terrain.grave
  let t2 : Hex := if chop then { t1 with terrain := Terrain.land } else t1
  let u1 : GameUnit := if chop then { u with has_moved := true } else u
  let is_attack := t1.owner ≠ some player_id
  if is_attack then
    let u2 : GameUnit := { u1 with has_moved := true }
    let old_owner := t1.owner
    let t3 : Hex := { t2 with owner := some player_id, unit := some u2 }
    -- clear graves when capturing
    let t4 : Hex := if t3.terrain = Terrain.grave then { t3 with terrain := Terrain.land } else t3
    let b' := (s.board.setAt from_hex.coord (fun h => { h with unit := none })).setAt
      t1.coord (fun _ => t4)
    let s1 : GState := { s with board := b' }
    let s2 := s1.updatePlayer player_id (fun p => p.update_regions b')
    let s3 := match old_owner with
      | some oo => s2.updatePlayer oo (fun p => p.update_regions b')
      | none => s2
    (s3, { success := true, message := "Move successful", killed_unit := killed_unit,
           conquered_hex := true })
  else
    let t3 : Hex := { t2 with unit := some u1 }
    let b' := (s.board.setAt from_hex.coord (fun h => { h with unit := none })).setAt
      t1.coord (fun _ => t3)
    ({ s with board := b' },
     { success := true, message := "Move successful", killed_unit := killed_unit })

/-- `GameRules.execute_move`. -/
def GState.execute_move (s : GState) (player_id : Nat)
    (from_q from_r to_q to_r : Int) : GState × MoveResult :=
  match s.board.get from_q from_r, s.board.get to_q to_r with
  | none, _ => (s, { success := false, message := "Invalid coordinates" })
  | some _, none => (s, { success := false, message := "Invalid coordinates" })
  | some from_hex, some to_hex =>
    let can := s.can_move player_id from_hex to_hex
    if !can.1 then (s, { success := false, message := can.2 })
    else
      match from_hex.unit with
      | none => (s, { success := false, message := can.2 })  -- unreachable: `can_move` checked the unit
      | some u =>
        -- combat: a defeated defender is removed
        let combat := to_hex.unit.isSome && to_hex.owner ≠ some player_id
        let killed_unit : Option GameUnit := if combat then to_hex.unit else none
        let t1 : Hex := if combat then { to_hex with unit := none } else to_hex
        -- merge with friendly unit
        match t1.unit with
        | some tu =>
          if t1.owner = some player_id then
            if u.can_merge_with tu then
              match GameUnit.merge u tu with
              | some merged =>
                let b' := (s.board.setAt t1.coord (fun h => { h with unit := some merged })).setAt
                  from_hex.coord (fun h => { h with unit := none })
                ({ s with board := b' },
                 { success := true, message := "Units merged", merged_into := some merged })
              | none =>
                -- mirrors the source's `if merged_into:` guard (cannot fire: see merge_of_can_merge)
                s.moveFinish player_id from_hex t1 u killed_unit
            else
              (s, { success := false, message := "Cannot merge units of different types" })
          else
            s.moveFinish player_id from_hex t1 u killed_unit
        | none =>
          s.moveFinish player_id from_hex t1 u killed_unit

/-- Result record of `GameRules.execute_buy`. -/
structure BuyResult where
  success : Bool
  message : String
  unit : Option GameUnit := none
deriving DecidableEq, Repr

/-- `GameRules.can_buy`: returns, besides legality, the index of the paying
region in the buyer's region list (the source returns the aliased `Region`
object). -/
def GState.can_buy (s : GState) (player_id : Nat) (unit_type : UnitType)
    (target_hex : Hex) : Bool × String × Option Nat :=
  match s.get_player player_id with
  | none => (false, "Player not found", none)
  | some player =>
    if target_hex.terrain = Terrain.grave ∧ target_hex.owner = some player_id then
      (false, "Clear the grave first", none)
    else if target_hex.terrain = Terrain.sea then
      (false, "Cannot place unit on sea", none)
    else
      let new_unit_strength := unit_type.strength
      let cost := unit_type.cost
      if target_hex.owner = some player_id then
        -- case 1: placing on own territory
        if target_hex.unit.isSome then (false, "Hex already has a unit", none)
        else
          match player.regionEntryForHex target_hex.coord with
          | none => (false, "Hex not in any region", none)
          | some e =>
            if e.2.gold < cost then (false, "Not enough gold", none)
            else (true, "OK", some e.1)
      else
        match target_hex.owner with
        | some _ =>
          -- case 2: attack by purchase
          let defense := s.get_defense_strength target_hex
          if new_unit_strength ≤ defense then (false, "Defense too strong", none)
          else
            let paying := (s.board.neighbors target_hex).findSome? (fun neighbor =>
              if neighbor.owner = some player_id then
                match player.regionEntryForHex neighbor.coord with
                | some e => if e.2.gold ≥ cost then some e.1 else none
                | none => none
              else none)
            match paying with
            | some j => (true, "OK", some j)
            | none => (false, "No adjacent region with enough gold", none)
        | none => (false, "Invalid target", none)

/-- Deduct `cost` from region number `ridx` of one player
(`paying_region.gold -= cost` on the aliased region object). -/
def GState.deductGold (s : GState) (player_id : Nat) (ridx : Nat) (cost : Int) : GState :=
  s.updatePlayer player_id (fun p =>
    { p with regions := p.regions.mapIdx (fun i r =>
        if i = ridx then { r with gold := r.gold - cost } else r) })

/-- `GameRules.execute_buy`. -/
def GState.execute_buy (s : GState) (player_id : Nat) (unit_type : UnitType)
    (target_q target_r : Int) : GState × BuyResult :=
  match s.board.get target_q target_r with
  | none => (s, { success := false, message := "Invalid coordinates" })
  | some target_hex =>
    match s.can_buy player_id unit_type target_hex with
    | (false, reason, _) => (s, { success := false, message := reason })
    | (true, _, none) =>
      -- unreachable: a successful `can_buy` always carries a paying region
      (s, { success := false, message := "No paying region" })
    | (true, _, some ridx) =>
      let cost := unit_type.cost
      let s1 := s.deductGold player_id ridx cost
      -- clear tree if buying on one (chop)
      let b1 := if target_hex.terrain = Terrain.tree then
          s1.board.setAt target_hex.coord (fun h => { h with terrain := Terrain.land })
        else s1.board
      -- kill enemy unit if present (it is simply replaced when the new unit lands)
      let _killed : Option GameUnit :=
        if target_hex.unit.isSome && target_hex.owner ≠ some player_id then target_hex.unit
        else none
      let conquered := target_hex.owner ≠ some player_id
      let old_owner := target_hex.owner
      let b2 := if conquered then
          (b1.setAt target_hex.coord (fun h => { h with owner := some player_id })).setAt
            target_hex.coord (fun h =>
              if h.terrain = Terrain.grave then { h with terrain := Terrain.land } else h)
        else b1
      let s2 : GState := { s1 with board := b2 }
      let s3 := if conquered then
          let s' := s2.updatePlayer player_id (fun p => p.update_regions b2)
          match old_owner with
          | some oo => s'.updatePlayer oo (fun p => p.update_regions b2)
          | none => s'
        else s2
      -- place the new unit, marked as having already acted
      let u : GameUnit := { type := unit_type, owner := player_id, has_moved := true }
      let b3 := s3.board.setAt target_hex.coord (fun h => { h with unit := some u })
      ({ s3 with board := b3 },
       { success := true, message := "Purchased", unit := some u })

/-- `GameRules.get_valid_moves`. -/
def GState.get_valid_moves (s : GState) (player_id : Nat) : List (Hex × Hex) :=
  (s.board.get_territory player_id).flatMap (fun from_hex =>
    match from_hex.unit with
    | some u =>
      if u.owner = player_id && !u.has_moved then
        (s.board.neighbors from_hex).filterMap (fun to_hex =>
          if (s.can_move player_id from_hex to_hex).1 then some (from_hex, to_hex)
          else none)
      else []
    | none => [])

/-- Iteration order of `for unit_type in UnitType` (enum definition order). -/
def allUnitTypes : List UnitType :=
  [UnitType.peasant, UnitType.spearman, UnitType.knight, UnitType.baron, UnitType.castle]

/-- The `Remove duplicates` pass of `GameRules.get_valid_purchases`:
keep the first entry for each `(unit kind, target coordinate)` key. -/
def dedupPurchases :
    List (UnitType × Coord × Int × Bool) → List (UnitType × Coord) →
      List (UnitType × Coord × Int × Bool)
  | [], _ => []
  | p :: rest, seen =>
    if (p.1, p.2.1) ∈ seen then dedupPurchases rest seen
    else p :: dedupPurchases rest ((p.1, p.2.1) :: seen)

/-- `GameRules.get_valid_purchases`: `(unit_type, hex, region_gold,
is_attack)` entries, deduplicated by `(unit_type, hex)`. -/
def GState.get_valid_purchases (s : GState) (player_id : Nat) :
    List (UnitType × Coord × Int × Bool) :=
  match s.get_player player_id with
  | none => []
  | some player =>
    let purchases := allUnitTypes.flatMap (fun unit_type =>
      let cost := unit_type.cost
      let strength := unit_type.strength
      -- own territory placements (including on trees)
      let own := player.regions.flatMap (fun region =>
        if region.gold ≥ cost then
          region.hexes.filterMap (fun c =>
            match s.board.getC c with
            | some h =>
              if h.unit = none ∧ h.terrain ≠ Terrain.sea ∧ h.terrain ≠ Terrain.grave then
                some (unit_type, c, region.gold, false)
              else none
            | none => none)
        else [])
      -- attack purchases on adjacent enemy hexes
      let atk := player.regions.flatMap (fun region =>
        if region.gold ≥ cost then
          region.hexes.flatMap (fun c =>
            match s.board.getC c with
            | some h =>
              (s.board.neighbors h).filterMap (fun neighbor =>
                if neighbor.owner ≠ none ∧ neighbor.owner ≠ some player_id ∧
                    neighbor.terrain ≠ Terrain.sea then
                  if strength > s.get_defense_strength neighbor then
                    some (unit_type, neighbor.coord, region.gold, true)
                  else none
                else none)
            | none => [])
        else [])
      own ++ atk)
    dedupPurchases purchases []

/-- `GameRules.reset_units_for_turn`. -/
def GState.reset_units_for_turn (s : GState) (player_id : Nat) : GState :=
  { s with board := { s.board with hexes := s.board.hexes.map (fun h =>
      if h.owner = some player_id then
        match h.unit with
        | some u => if u.owner = player_id then { h with unit := some u.reset_for_turn } else h
        | none => h
      else h) } }

/-- `GameRules.check_victory`: the sole active player wins, none is a draw
(`-1`), several means no winner yet. -/
def GState.check_victory (s : GState) : Option Int :=
  match s.players.filter (fun p => !p.eliminated) with
  | [p] => some (p.id : Int)
  | [] => some (-1)
  | _ => none

/-! ## Turn state machine (`state.py`) -/

/-- `GameState._grow_trees`: graves age into trees, trees spread onto empty
land hexes with enough tree neighbors (1 for coastal hexes, the configured
threshold inland); capital hexes are protected and cleared. -/
def GState.grow_trees (s : GState) (player_id : Nat) : GState :=
  match s.get_player player_id with
  | none => s
  | some player =>
    let territory := (s.board.get_territory player_id).map Hex.coord
    -- capital hexes (protected from trees), cleared so the player can buy there
    let capital_hexes := player.regions.filterMap Region.capital_hex
    let b1 := capital_hexes.foldl (fun b c => b.setAt c (fun h =>
        if h.terrain = Terrain.tree ∨ h.terrain = Terrain.grave then
          { h with terrain := Terrain.land }
        else h)) s.board
    -- first: all graves become trees (except capitals)
    let stepGrave := territory.foldl (fun (st : Board × List Coord) c =>
      if c ∈ capital_hexes then st
      else
        match st.1.terrainAt c with
        | some Terrain.grave =>
          (st.1.setAt c (fun h => { h with terrain := Terrain.tree }), st.2 ++ [c])
        | _ => st) (b1, [])
    let b2 := stepGrave.1
    -- second: tree spread to qualifying empty land hexes (except capitals)
    let candidates := territory.filter (fun c =>
      match b2.getC c with
      | some h =>
        h.terrain = Terrain.land && h.unit = none && decide (c ∉ capital_hexes) &&
          (let neighbors := b2.neighbors h
           let tree_neighbors := (neighbors.filter (fun n => n.terrain = Terrain.tree)).length
           let is_coastal := neighbors.any (fun n => n.terrain = Terrain.sea)
           let threshold := if is_coastal then 1 else s.tree_spread_threshold
           decide (tree_neighbors ≥ threshold))
      | none => false)
    let b3 := candidates.foldl (fun b c =>
      b.setAt c (fun h => { h with terrain := Terrain.tree })) b2
    let new_trees := stepGrave.2 ++ candidates
    let s' : GState := { s with board := b3 }
    if new_trees.isEmpty then s'
    else s'.updatePlayer player_id (fun p => p.update_regions b3)

/-- A castle-requirement death as reported by `GameState.start_turn`. -/
structure PlayerCastleDeath where
  player : Nat
  region_size : Nat
  hexes : List Coord
deriving DecidableEq, Repr

/-- A maintenance death as reported by `GameState.start_turn`. -/
structure PlayerMaintenanceDeath where
  player : Nat
  region_size : Nat
  hexes : List Coord
  needed : Int
  had : Int
deriving DecidableEq, Repr

/-- An isolated-unit death as reported by `GameState.start_turn`. -/
structure IsolatedDeath where
  player : Nat
  hex : Coord
  unit : UnitType
deriving DecidableEq, Repr

/-- Return value of `GameState.start_turn`. -/
structure StartTurnResult where
  castle_deaths : List PlayerCastleDeath
  maintenance_deaths : List PlayerMaintenanceDeath
  isolated_deaths : List IsolatedDeath
deriving DecidableEq, Repr

/-- The `for p in self.players:` loop at the top of `GameState.start_turn`:
castle check, maintenance check and isolated-unit kill for every
non-eliminated player, threading the board. -/
def startChecksLoop (b : Board) :
    List Player →
      List Player × Board × List PlayerCastleDeath × List PlayerMaintenanceDeath ×
        List IsolatedDeath
  | [] => ([], b, [], [], [])
  | p :: rest =>
    if p.eliminated then
      let res := startChecksLoop b rest
      (p :: res.1, res.2.1, res.2.2.1, res.2.2.2.1, res.2.2.2.2)
    else
      let c1 := p.check_castle_requirement b
      let c2 := c1.1.check_territory_maintenance c1.2.1
      let c3 := c2.1.kill_isolated_units c2.2.1
      let res := startChecksLoop c3.1 rest
      (c2.1 :: res.1, res.2.1,
       c1.2.2.map (fun d => { player := p.id, region_size := d.region_size,
                              hexes := d.hexes }) ++ res.2.2.1,
       c2.2.2.map (fun d => { player := p.id, region_size := d.region_size,
                              hexes := d.hexes, needed := d.needed,
                              had := d.had }) ++ res.2.2.2.1,
       c3.2.map (fun d => { player := p.id, hex := d.1, unit := d.2 }) ++ res.2.2.2.2)

/-- `GameState.start_turn`: per-player death checks for all players, then
tree growth, income collection and unit reset for the player whose turn is
starting. -/
def GState.start_turn (s : GState) : GState × StartTurnResult :=
  let res := startChecksLoop s.board s.players
  let s1 : GState := { s with players := res.1, board := res.2.1 }
  let result : StartTurnResult :=
    { castle_deaths := res.2.2.1, maintenance_deaths := res.2.2.2.1,
      isolated_deaths := res.2.2.2.2 }
  match s1.players[s1.current_player_idx]? with
  | none => (s1, result)  -- out-of-range current player cannot occur in a real game
  | some player =>
    let s2 := if s1.tree_growth_enabled then s1.grow_trees player.id else s1
    let s3 := s2.updatePlayer player.id (fun p => p.start_turn s2.board)
    let s4 := s3.reset_units_for_turn player.id
    (s4, result)

/-! ## Serialization (`to_dict` / `from_dict`) and snapshots -/

/-- `Unit.to_dict` (includes the derived strength, which `from_dict`
ignores). -/
structure UnitData where
  type : UnitType
  owner : Nat
  strength : Nat
  has_moved : Bool
deriving DecidableEq, Repr

def GameUnit.to_dict (u : GameUnit) : UnitData :=
  { type := u.type, owner := u.owner, strength := u.strength, has_moved := u.has_moved }

/-- `Unit.from_dict`. -/
def GameUnit.from_dict (d : UnitData) : GameUnit :=
  { type := d.type, owner := d.owner, has_moved := d.has_moved }

/-- `Hex.to_dict`; `has_capital` is the decoration added by
`GameState.to_dict` and ignored by `Board.from_dict`. -/
structure HexData where
  terrain : Terrain
  owner : Option Nat
  unit : Option UnitData
  has_capital : Bool := false
deriving DecidableEq, Repr

def Hex.to_dict (h : Hex) : HexData :=
  { terrain := h.terrain, owner := h.owner, unit := h.unit.map GameUnit.to_dict }

/-- `Board.to_dict` (the `"q,r"` string keys are modelled by coordinate
pairs; the key format is bijective). -/
structure BoardData where
  width : Nat
  height : Nat
  hexes : List (Coord × HexData)
deriving DecidableEq, Repr

def Board.to_dict (b : Board) : BoardData :=
  { width := b.width, height := b.height,
    hexes := b.hexes.map (fun h => (h.coord, h.to_dict)) }

/-- `Board.from_dict`. -/
def Board.from_dict (d : BoardData) : Board :=
  { width := d.width, height := d.height,
    hexes := d.hexes.map (fun e =>
      { q := e.1.1, r := e.1.2, terrain := e.2.terrain, owner := e.2.owner,
        unit := e.2.unit.map GameUnit.from_dict }) }

/-- `GameState.to_dict` output (the transient `actions_this_turn` display
list is omitted, as in §3). -/
structure GStateData where
  turn : Nat
  current_player : Nat
  board : BoardData
  players : List PlayerData
  tree_growth_enabled : Bool
  tree_spread_threshold : Nat
deriving DecidableEq, Repr

/-- `GameState.to_dict`: board and players, with per-hex capital flags
decorated onto the board data. -/
def GState.to_dict (s : GState) : GStateData :=
  let board_dict := s.board.to_dict
  let capital_hexes := s.players.flatMap (fun p => p.regions.filterMap Region.capital_hex)
  let board_dict :=
    { board_dict with hexes := board_dict.hexes.map (fun e =>
        (e.1, { e.2 with has_capital := decide (e.1 ∈ capital_hexes) })) }
  { turn := s.turn, current_player := s.current_player_idx, board := board_dict,
    players := s.players.map Player.to_dict,
    tree_growth_enabled := s.tree_growth_enabled,
    tree_spread_threshold := s.tree_spread_threshold }

/-- `GameState.from_dict`. -/
def GState.from_dict (d : GStateData) : GState :=
  let board := Board.from_dict d.board
  let players := d.players.map (fun pd => Player.from_dict pd board)
  { board := board, players := players, current_player_idx := d.current_player,
    turn := d.turn, tree_growth_enabled := d.tree_growth_enabled,
    tree_spread_threshold := d.tree_spread_threshold }

/-! ## History and snapshots (`history/snapshot.py`, `history/manager.py`) -/

/-- `StateSnapshot`: complete game state at a point in time plus the action
log length at capture. -/
structure StateSnapshot where
  turn : Nat
  current_player_idx : Nat
  board_data : BoardData
  players_data : List PlayerData
  action_count : Nat
deriving DecidableEq, Repr

/-- `StateSnapshot.capture`. -/
def StateSnapshot.capture (s : GState) (action_count : Nat) : StateSnapshot :=
  { turn := s.turn, current_player_idx := s.current_player_idx,
    board_data := s.board.to_dict, players_data := s.players.map Player.to_dict,
    action_count := action_count }

/-- `GameState.from_snapshot` (tree configuration is reset to its
defaults, constructor side effects are skipped). -/
def GState.from_snapshot (snap : StateSnapshot) : GState :=
  let board := Board.from_dict snap.board_data
  let players := snap.players_data.map (fun pd => Player.from_dict pd board)
  { board := board, players := players,
    current_player_idx := snap.current_player_idx, turn := snap.turn,
    tree_growth_enabled := true, tree_spread_threshold := 2 }

/-- `StateSnapshot.restore`. -/
def StateSnapshot.restore (snap : StateSnapshot) : GState :=
  GState.from_snapshot snap

/-- `ActionType` of the history log. -/
inductive ActionType
  | move
  | buy
  | end_turn
  | turn_start
deriving DecidableEq, Repr

/-- `GameAction` (the free-form `params`/`result` payloads and wall-clock
timestamp carry no rule content and are omitted). -/
structure GameAction where
  action_type : ActionType
  player_id : Nat
  turn : Nat
  sequence : Nat
deriving DecidableEq, Repr

/-- `HistoryManager`: append-only action log plus the id-indexed snapshot
dict (modelled as an insertion-ordered association list). -/
structure HistoryManager where
  actions : List GameAction := []
  snapshots : List (Nat × StateSnapshot) := []
  action_sequence : Nat := 0
  snapshot_sequence : Nat := 0
deriving DecidableEq, Repr

/-- `HistoryManager.record_action`. -/
def HistoryManager.record_action (m : HistoryManager) (action_type : ActionType)
    (player_id turn : Nat) : HistoryManager × GameAction :=
  let action : GameAction :=
    { action_type := action_type, player_id := player_id, turn := turn,
      sequence := m.action_sequence }
  ({ m with
      actions := m.actions ++ [action],
      action_sequence := m.action_sequence + 1 }, action)

/-- `HistoryManager.capture_snapshot`: returns the new snapshot id. -/
def HistoryManager.capture_snapshot (m : HistoryManager) (s : GState) :
    HistoryManager × Nat :=
  let sid := m.snapshot_sequence + 1
  ({ m with
      snapshot_sequence := sid,
      snapshots := m.snapshots ++ [(sid, StateSnapshot.capture s m.actions.length)] },
   sid)

/-- `HistoryManager.get_snapshot`. -/
def HistoryManager.get_snapshot (m : HistoryManager) (snapshot_id : Nat) :
    Option StateSnapshot :=
  (m.snapshots.find? (fun e => e.1 = snapshot_id)).map (fun e => e.2)

/-- `HistoryManager.get_state_at_snapshot` (`none` models the source's
`ValueError`). -/
def HistoryManager.get_state_at_snapshot (m : HistoryManager) (snapshot_id : Nat) :
    Option GState :=
  (m.get_snapshot snapshot_id).map StateSnapshot.restore

/-- `HistoryManager.undo_to_snapshot`: restore the state, truncate the
action log to the recorded length and drop all later snapshots. -/
def HistoryManager.undo_to_snapshot (m : HistoryManager) (snapshot_id : Nat) :
    Option (GState × HistoryManager) :=
  match m.get_snapshot snapshot_id with
  | none => none
  | some snapshot =>
    let state := snapshot.restore
    let actions := m.actions.take snapshot.action_count
    some (state,
      { m with
          actions := actions,
          action_sequence := actions.length,
          snapshots := m.snapshots.filter (fun e => e.1 ≤ snapshot_id),
          snapshot_sequence := snapshot_id })

/-! ## Basic lemmas about board lookups and updates -/

theorem Board.get_eq_some (b : Board) (q r : Int) (h : Hex)
    (hget : b.get q r = some h) : h.q = q ∧ h.r = r ∧ h ∈ b.hexes := by
  have hp := List.find?_some hget
  have hm := List.mem_of_find?_eq_some hget
  simp only [Bool.and_eq_true, decide_eq_true_eq] at hp
  exact ⟨hp.1, hp.2, hm⟩

theorem Board.getC_eq_some (b : Board) (c : Coord) (h : Hex)
    (hget : b.getC c = some h) : h.coord = c ∧ h ∈ b.hexes := by
  obtain ⟨h1, h2, h3⟩ := b.get_eq_some c.1 c.2 h hget
  refine ⟨?_, h3⟩
  simp [Hex.coord, h1, h2]

theorem find?_coord_of_mem (l : List Hex) (hnd : (l.map Hex.coord).Nodup)
    (h : Hex) (hm : h ∈ l) :
    l.find? (fun x => x.q = h.coord.1 && x.r = h.coord.2) = some h := by
  induction l with
  | nil => cases hm
  | cons x xs ih =>
    simp only [List.map_cons, List.nodup_cons] at hnd
    rcases List.mem_cons.mp hm with rfl | hmem
    · simp [List.find?, Hex.coord]
    · rw [List.find?]
      have hxne : (decide (x.q = h.coord.1) && decide (x.r = h.coord.2)) = false := by
        by_contra hx
        rw [Bool.not_eq_false, Bool.and_eq_true, decide_eq_true_eq,
          decide_eq_true_eq] at hx
        have hx' : x.coord = h.coord := by
          simp [Hex.coord, hx.1, hx.2]
        exact hnd.1 (hx' ▸ List.mem_map_of_mem Hex.coord hmem)
      rw [hxne]
      exact ih hnd.2 hmem

theorem Board.getC_of_mem (b : Board) (hwf : b.WF) (h : Hex) (hm : h ∈ b.hexes) :
    b.getC h.coord = some h :=
  find?_coord_of_mem b.hexes hwf h hm

/-- A coordinate-preserving update function. -/
def PreservesCoord (f : Hex → Hex) : Prop := ∀ h : Hex, (f h).q = h.q ∧ (f h).r = h.r

theorem Board.getC_setAt (b : Board) (c : Coord) (f : Hex → Hex) (c' : Coord)
    (hf : PreservesCoord f) :
    (b.setAt c f).getC c' =
      (b.getC c').map (fun h => if h.q = c.1 && h.r = c.2 then f h else h) := by
  unfold Board.setAt Board.getC Board.get
  rw [List.find?_map]
  have hfun : ((fun x : Hex => x.q = c'.1 && x.r = c'.2) ∘
      (fun h : Hex => if h.q = c.1 && h.r = c.2 then f h else h)) =
      (fun x : Hex => x.q = c'.1 && x.r = c'.2) := by
    funext h
    simp only [Function.comp_apply]
    split
    · have := hf h
      rw [this.1, this.2]
    · rfl
  rw [hfun]

theorem Board.getC_setAt_ne (b : Board) (c : Coord) (f : Hex → Hex) (c' : Coord)
    (hf : PreservesCoord f) (hne : c' ≠ c) :
    (b.setAt c f).getC c' = b.getC c' := by
  rw [b.getC_setAt c f c' hf]
  cases hget : b.getC c' with
  | none => rfl
  | some h =>
    obtain ⟨hc, _⟩ := b.getC_eq_some c' h hget
    have hcond : (decide (h.q = c.1) && decide (h.r = c.2)) = false := by
      by_contra hx
      rw [Bool.not_eq_false, Bool.and_eq_true, decide_eq_true_eq,
        decide_eq_true_eq] at hx
      apply hne
      rw [← hc]
      simp [Hex.coord, hx.1, hx.2]
    simp only [Option.map_some']
    rw [hcond]
    simp

theorem Board.getC_setAt_self (b : Board) (c : Coord) (f : Hex → Hex)
    (hf : PreservesCoord f) :
    (b.setAt c f).getC c = (b.getC c).map f := by
  rw [b.getC_setAt c f c hf]
  cases hget : b.getC c with
  | none => rfl
  | some h =>
    obtain ⟨hc, _⟩ := b.getC_eq_some c h hget
    have hq : h.q = c.1 ∧ h.r = c.2 := by
      rw [← hc]
      exact ⟨rfl, rfl⟩
    have hcond : (decide (h.q = c.1) && decide (h.r = c.2)) = true := by
      simp [hq.1, hq.2]
    simp only [Option.map_some']
    rw [hcond]
    simp

/-! ## Lemmas about merging and move legality -/

theorem bool_eq_false {b : Bool} (h : ¬ b = true) : b = false := by
  cases b
  · rfl
  · exact absurd rfl h

theorem merge_of_can_merge (u1 u2 : GameUnit) (h : u1.can_merge_with u2 = true) :
    ∃ nt, UPGRADE_PATH u1.type = some nt ∧
      GameUnit.merge u1 u2 = some { type := nt, owner := u1.owner, has_moved := true } ∧
      nt ≠ UnitType.castle := by
  have hup : (UPGRADE_PATH u1.type).isSome = true := by
    unfold GameUnit.can_merge_with at h
    simp only [Bool.and_eq_true] at h
    exact h.2
  cases ht : u1.type
  case peasant =>
    exact ⟨UnitType.spearman, by simp [ht, UPGRADE_PATH],
      by simp [GameUnit.merge, h, ht, UPGRADE_PATH], by simp⟩
  case spearman =>
    exact ⟨UnitType.knight, by simp [ht, UPGRADE_PATH],
      by simp [GameUnit.merge, h, ht, UPGRADE_PATH], by simp⟩
  case knight =>
    exact ⟨UnitType.baron, by simp [ht, UPGRADE_PATH],
      by simp [GameUnit.merge, h, ht, UPGRADE_PATH], by simp⟩
  case baron =>
    rw [ht] at hup
    simp [UPGRADE_PATH] at hup
  case castle =>
    rw [ht] at hup
    simp [UPGRADE_PATH] at hup

theorem can_move_false_of_moved (s : GState) (pid : Nat) (f t : Hex) (u : GameUnit)
    (hu : f.unit = some u) (how : u.owner = pid) (hm : u.has_moved = true)
    (ht : t.owner ≠ some pid ∨ t.terrain = Terrain.tree ∨ t.terrain = Terrain.grave) :
    (s.can_move pid f t).1 = false := by
  unfold GState.can_move
  rw [hu]
  by_cases hmob : u.is_mobile = true
  case neg =>
    simp [how, bool_eq_false hmob]
  by_cases hadj : hexMemByCoord t (s.board.neighbors f) = true
  case neg =>
    simp [how, hmob, bool_eq_false hadj]
  by_cases hsea : t.terrain = Terrain.sea
  case pos =>
    simp [how, hmob, hadj, hsea]
  by_cases hcl : (t.terrain = Terrain.tree ∨ t.terrain = Terrain.grave) ∧
      t.owner = some pid
  case pos =>
    simp [how, hmob, hadj, hsea, hcl, hm]
  by_cases hint : t.owner = some pid
  case pos =>
    rcases ht with h | h | h
    · exact absurd hint h
    · exact absurd ⟨Or.inl h, hint⟩ hcl
    · exact absurd ⟨Or.inr h, hint⟩ hcl
  case neg =>
    simp [how, hmob, hadj, hsea, hcl, hint, hm]

theorem can_move_attack_iff (s : GState) (pid : Nat) (f t : Hex) (u : GameUnit)
    (e : Nat) (hu : f.unit = some u) (hown : t.owner = some e) (hne : e ≠ pid) :
    (s.can_move pid f t).1 = true ↔
      (u.owner = pid ∧ u.is_mobile = true ∧
        hexMemByCoord t (s.board.neighbors f) = true ∧ t.terrain ≠ Terrain.sea ∧
        u.has_moved = false ∧ u.strength > s.get_defense_strength t) := by
  have hto : t.owner ≠ some pid := by
    rw [hown]
    intro hx
    exact hne (by injection hx)
  unfold GState.can_move
  rw [hu]
  dsimp only
  by_cases h1 : u.owner = pid
  case neg =>
    rw [if_pos h1]
    simp [h1]
  by_cases hmob : u.is_mobile = true
  case neg =>
    simp [h1, bool_eq_false hmob]
  by_cases hadj : hexMemByCoord t (s.board.neighbors f) = true
  case neg =>
    simp [h1, hmob, bool_eq_false hadj]
  by_cases hsea : t.terrain = Terrain.sea
  case pos =>
    simp [h1, hmob, hadj, hsea]
  have hcl : ¬((t.terrain = Terrain.tree ∨ t.terrain = Terrain.grave) ∧
      t.owner = some pid) := fun hx => hto hx.2
  by_cases hmoved : u.has_moved = true
  case pos =>
    simp [h1, hmob, hadj, hsea, hcl, hto, hmoved]
  case neg =>
    have hmoved' : u.has_moved = false := bool_eq_false hmoved
    rw [if_neg (fun hx : u.owner ≠ pid => hx h1)]
    rw [if_neg (show ¬ (!u.is_mobile) = true by simp [hmob])]
    rw [if_neg (show ¬ (!hexMemByCoord t (s.board.neighbors f)) = true by simp [hadj])]
    rw [if_neg hsea, if_neg hcl, if_neg hto]
    rw [hmoved']
    rw [if_neg (show ¬ (false = true) by simp)]
    rw [hown]
    dsimp only
    by_cases hdef : u.strength ≤ s.get_defense_strength t
    · rw [if_pos hdef]
      simp only [Bool.false_eq_true, false_iff]
      intro hx
      omega
    · rw [if_neg hdef]
      simp only [true_iff]
      exact ⟨h1, hmob, hadj, hsea, by simp, by omega⟩

theorem moveFinish_success (s : GState) (pid : Nat) (f t1 : Hex) (u : GameUnit)
    (k : Option GameUnit) : (s.moveFinish pid f t1 u k).2.success = true := by
  unfold GState.moveFinish
  dsimp only
  split <;> rfl

/-! ## Concrete fixtures used by witnesses and counterexamples -/

/-- Fixture: knight of player 0 next to a spearman-defended hex of player 1
(defense 2, attacker strength 3 = defense + 1). -/
def c1hA : Hex := { q := 0, r := 0, owner := some 0, unit := some ⟨UnitType.knight, 0, false⟩ }

def c1hB : Hex := { q := 1, r := 0, owner := some 1, unit := some ⟨UnitType.spearman, 1, false⟩ }

def c1board : Board := { width := 2, height := 1, hexes := [c1hA, c1hB] }

def c1state : GState :=
  { board := c1board,
    players := [(Player.mk 0 false []).update_regions c1board,
                (Player.mk 1 false []).update_regions c1board] }

/-! ## C1, C2, C10 -/

/-- C1: when the target hex is owned by an opponent, a move is legal only if
the attacker's strength strictly exceeds the target's defense strength (the
multi-source maximum computed by `get_defense_strength`); strength equal to
the defense is always rejected, and strength exactly one greater passes the
strength check (given the other preconditions of `can_move`). -/
theorem combat_strict_inequality (s : GState) (pid e : Nat) (f t : Hex)
    (hown : t.owner = some e) (hne : e ≠ pid) :
    ((s.can_move pid f t).1 = true →
      ∀ u, f.unit = some u → u.strength > s.get_defense_strength t) ∧
    (∀ u, f.unit = some u → u.strength = s.get_defense_strength t →
      (s.can_move pid f t).1 = false) ∧
    (∀ u, f.unit = some u → u.owner = pid → u.is_mobile = true →
      u.has_moved = false → hexMemByCoord t (s.board.neighbors f) = true →
      t.terrain ≠ Terrain.sea → u.strength = s.get_defense_strength t + 1 →
      (s.can_move pid f t).1 = true) := by
  refine ⟨?_, ?_, ?_⟩
  · intro hcan u hu
    exact ((can_move_attack_iff s pid f t u e hu hown hne).mp hcan).2.2.2.2.2
  · intro u hu heq
    cases hcan : (s.can_move pid f t).1 with
    | false => rfl
    | true =>
      have := ((can_move_attack_iff s pid f t u e hu hown hne).mp hcan).2.2.2.2.2
      omega
  · intro u hu how hmob hmoved hadj hsea hstr
    exact (can_move_attack_iff s pid f t u e hu hown hne).mpr
      ⟨how, hmob, hadj, hsea, hmoved, by omega⟩

theorem combat_strict_inequality_witness :
    c1hB.owner = some 1 ∧ (1 : Nat) ≠ 0 ∧
      (((c1state.can_move 0 c1hA c1hB).1 = true →
        ∀ u, c1hA.unit = some u → u.strength > c1state.get_defense_strength c1hB) ∧
      (∀ u, c1hA.unit = some u → u.strength = c1state.get_defense_strength c1hB →
        (c1state.can_move 0 c1hA c1hB).1 = false) ∧
      (∀ u, c1hA.unit = some u → u.owner = 0 → u.is_mobile = true →
        u.has_moved = false → hexMemByCoord c1hB (c1state.board.neighbors c1hA) = true →
        c1hB.terrain ≠ Terrain.sea →
        u.strength = c1state.get_defense_strength c1hB + 1 →
        (c1state.can_move 0 c1hA c1hB).1 = true)) :=
  ⟨rfl, by decide, combat_strict_inequality c1state 0 1 c1hA c1hB rfl (by decide)⟩

/-- C10: merging two mergeable units (same kind, same owner, mobile,
upgradeable) yields the next-tier kind with the has-acted flag always set,
so the merged unit can neither attack nor clear terrain this turn. -/
theorem merge_always_sets_has_acted (u1 u2 : GameUnit)
    (h : u1.can_merge_with u2 = true) :
    ∃ nt, UPGRADE_PATH u1.type = some nt ∧
      GameUnit.merge u1 u2 = some { type := nt, owner := u1.owner, has_moved := true } ∧
      ∀ (s : GState) (f t : Hex),
        f.unit = some { type := nt, owner := u1.owner, has_moved := true } →
        (t.owner ≠ some u1.owner ∨ t.terrain = Terrain.tree ∨
          t.terrain = Terrain.grave) →
        (s.can_move u1.owner f t).1 = false := by
  obtain ⟨nt, hup, hmerge, _⟩ := merge_of_can_merge u1 u2 h
  refine ⟨nt, hup, hmerge, ?_⟩
  intro s f t hu ht
  exact can_move_false_of_moved s u1.owner f t _ hu rfl rfl ht

theorem merge_always_sets_has_acted_witness :
    (GameUnit.can_merge_with ⟨UnitType.peasant, 0, false⟩ ⟨UnitType.peasant, 0, false⟩
      = true) ∧
    (∃ nt, UPGRADE_PATH UnitType.peasant = some nt ∧
      GameUnit.merge ⟨UnitType.peasant, 0, false⟩ ⟨UnitType.peasant, 0, false⟩
        = some { type := nt, owner := 0, has_moved := true } ∧
      ∀ (s : GState) (f t : Hex),
        f.unit = some { type := nt, owner := 0, has_moved := true } →
        (t.owner ≠ some 0 ∨ t.terrain = Terrain.tree ∨ t.terrain = Terrain.grave) →
        (s.can_move 0 f t).1 = false) :=
  ⟨by decide,
   merge_always_sets_has_acted ⟨UnitType.peasant, 0, false⟩
     ⟨UnitType.peasant, 0, false⟩ (by decide)⟩

/-- C2: a rejected move or buy action (success = false, for any reason)
leaves the whole game state — grid, players, regions, gold — exactly as it
was. -/
theorem execute_move_state_or_success (s : GState) (pid : Nat)
    (fq fr tq tr : Int) :
    (s.execute_move pid fq fr tq tr).1 = s ∨
      (s.execute_move pid fq fr tq tr).2.success = true := by
  unfold GState.execute_move
  repeat first
  | exact Or.inl rfl
  | exact Or.inr rfl
  | exact Or.inr (by apply moveFinish_success)
  | split
  | dsimp only

theorem execute_buy_state_or_success (s : GState) (pid : Nat) (ut : UnitType)
    (tq tr : Int) :
    (s.execute_buy pid ut tq tr).1 = s ∨
      (s.execute_buy pid ut tq tr).2.success = true := by
  unfold GState.execute_buy
  split
  · exact Or.inl rfl
  · split
    · exact Or.inl rfl
    · exact Or.inl rfl
    · exact Or.inr rfl

theorem rejected_actions_do_not_mutate (s : GState) (pid : Nat)
    (fq fr tq tr : Int) (ut : UnitType) :
    ((s.execute_move pid fq fr tq tr).2.success = false →
      (s.execute_move pid fq fr tq tr).1 = s) ∧
    ((s.execute_buy pid ut tq tr).2.success = false →
      (s.execute_buy pid ut tq tr).1 = s) := by
  constructor
  · intro hfail
    rcases execute_move_state_or_success s pid fq fr tq tr with h | h
    · exact h
    · rw [hfail] at h
      cases h
  · intro hfail
    rcases execute_buy_state_or_success s pid ut tq tr with h | h
    · exact h
    · rw [hfail] at h
      cases h

theorem rejected_actions_do_not_mutate_witness :
    (c1state.execute_move 0 0 0 5 5).2.success = false ∧
    (c1state.execute_move 0 0 0 5 5).1 = c1state ∧
    (c1state.execute_buy 0 UnitType.peasant 1 0).2.success = false ∧
    (c1state.execute_buy 0 UnitType.peasant 1 0).1 = c1state :=
  ⟨by decide,
   (rejected_actions_do_not_mutate c1state 0 0 0 5 5 UnitType.peasant).1 (by decide),
   by decide,
   (rejected_actions_do_not_mutate c1state 0 0 0 1 0 UnitType.peasant).2 (by decide)⟩

/-! ## C7: undo idempotence -/

theorem find?_filter_of_imp (l : List α) (p q : α → Bool)
    (h : ∀ x, p x = true → q x = true) : (l.filter q).find? p = l.find? p := by
  induction l with
  | nil => rfl
  | cons a as ih =>
    by_cases hq : q a = true
    · rw [List.filter_cons_of_pos hq]
      cases hp : p a with
      | true => rw [List.find?_cons_of_pos _ hp, List.find?_cons_of_pos _ hp]
      | false =>
        rw [List.find?_cons_of_neg _ (by simp [hp]),
          List.find?_cons_of_neg _ (by simp [hp])]
        exact ih
    · rw [List.filter_cons_of_neg (by simpa using hq)]
      have hp : p a = false := by
        cases hpa : p a with
        | true => exact absurd (h a hpa) hq
        | false => rfl
      rw [List.find?_cons_of_neg _ (by simp [hp])]
      exact ih

/-- C7: undoing to snapshot N twice in a row yields the same state and the
same manager both times; the action log is truncated to exactly the recorded
length and exactly the snapshots with id ≤ N remain. -/
theorem undo_to_snapshot_idempotent (m : HistoryManager) (N : Nat)
    (snap : StateSnapshot) (hfind : m.get_snapshot N = some snap)
    (hwf : snap.action_count ≤ m.actions.length) :
    ∃ s1 m1, m.undo_to_snapshot N = some (s1, m1) ∧
      m1.undo_to_snapshot N = some (s1, m1) ∧
      m1.actions.length = snap.action_count ∧
      (∀ e : Nat × StateSnapshot, e ∈ m1.snapshots ↔ (e ∈ m.snapshots ∧ e.1 ≤ N)) := by
  refine ⟨snap.restore,
    { m with
        actions := m.actions.take snap.action_count,
        action_sequence := (m.actions.take snap.action_count).length,
        snapshots := m.snapshots.filter (fun e => e.1 ≤ N),
        snapshot_sequence := N }, ?_, ?_, ?_, ?_⟩
  · unfold HistoryManager.undo_to_snapshot
    rw [hfind]
  · have hfind2 : HistoryManager.get_snapshot
        { m with
            actions := m.actions.take snap.action_count,
            action_sequence := (m.actions.take snap.action_count).length,
            snapshots := m.snapshots.filter (fun e => e.1 ≤ N),
            snapshot_sequence := N } N = some snap := by
      unfold HistoryManager.get_snapshot at hfind ⊢
      dsimp only
      rw [find?_filter_of_imp _ _ _ (fun e he => by
        simp only [decide_eq_true_eq] at he ⊢
        omega)]
      exact hfind
    unfold HistoryManager.undo_to_snapshot
    rw [hfind2]
    dsimp only
    have hactions : (m.actions.take snap.action_count).take snap.action_count
        = m.actions.take snap.action_count := by
      apply List.take_of_length_le
      rw [List.length_take]
      omega
    have hsnaps : (m.snapshots.filter (fun e => e.1 ≤ N)).filter (fun e => e.1 ≤ N)
        = m.snapshots.filter (fun e => e.1 ≤ N) := by
      rw [List.filter_filter]
      congr 1
      funext a
      rw [Bool.and_self]
    rw [hactions, hsnaps]
  · dsimp only
    rw [List.length_take]
    omega
  · intro e
    dsimp only
    rw [List.mem_filter]
    simp only [decide_eq_true_eq]

def c7snap : StateSnapshot := StateSnapshot.capture c1state 1

def c7action : GameAction :=
  { action_type := ActionType.move, player_id := 0, turn := 1, sequence := 0 }

def c7mgr : HistoryManager :=
  { actions := [c7action], snapshots := [(1, c7snap)],
    action_sequence := 1, snapshot_sequence := 1 }

theorem undo_to_snapshot_idempotent_witness :
    c7mgr.get_snapshot 1 = some c7snap ∧ c7snap.action_count ≤ c7mgr.actions.length ∧
      (∃ s1 m1, c7mgr.undo_to_snapshot 1 = some (s1, m1) ∧
        m1.undo_to_snapshot 1 = some (s1, m1) ∧
        m1.actions.length = c7snap.action_count ∧
        (∀ e : Nat × StateSnapshot, e ∈ m1.snapshots ↔ (e ∈ c7mgr.snapshots ∧ e.1 ≤ 1))) :=
  ⟨rfl, by decide, undo_to_snapshot_idempotent c7mgr 1 c7snap rfl (by decide)⟩

/-! ## C9: enumeration of legal moves and purchases -/

theorem dedupPurchases_pairwise (l : List (UnitType × Coord × Int × Bool))
    (seen : List (UnitType × Coord)) :
    List.Pairwise (fun a b => ¬(a.1 = b.1 ∧ a.2.1 = b.2.1)) (dedupPurchases l seen) ∧
    ∀ x ∈ dedupPurchases l seen, (x.1, x.2.1) ∉ seen := by
  induction l generalizing seen with
  | nil => exact ⟨List.Pairwise.nil, by intro x hx; cases hx⟩
  | cons p rest ih =>
    unfold dedupPurchases
    by_cases hmem : (p.1, p.2.1) ∈ seen
    · rw [if_pos hmem]
      exact ih seen
    · rw [if_neg hmem]
      obtain ⟨hpw, hnotin⟩ := ih ((p.1, p.2.1) :: seen)
      constructor
      · refine List.Pairwise.cons ?_ hpw
        intro b hb hab
        apply hnotin b hb
        have : ((b.1, b.2.1) : UnitType × Coord) = (p.1, p.2.1) := by
          rw [← hab.1, ← hab.2]
        rw [this]
        exact List.mem_cons_self _ _
      · intro x hx
        rcases List.mem_cons.mp hx with rfl | hx'
        · exact hmem
        · intro hxin
          exact hnotin x hx' (List.mem_cons_of_mem _ hxin)

/-- C9 (amended): `get_valid_moves` returns exactly the pairs of a territory
hex holding the player's unit **that has not yet acted this turn** and an
adjacent hex passing `can_move`; `get_valid_purchases` has at most one entry
per (kind, target) pair. -/
theorem valid_move_enumeration (s : GState) (pid : Nat) :
    (∀ f t : Hex, (f, t) ∈ s.get_valid_moves pid ↔
      (f ∈ s.board.get_territory pid ∧
       (∃ u, f.unit = some u ∧ u.owner = pid ∧ u.has_moved = false) ∧
       t ∈ s.board.neighbors f ∧ (s.can_move pid f t).1 = true)) ∧
    List.Pairwise (fun a b => ¬(a.1 = b.1 ∧ a.2.1 = b.2.1))
      (s.get_valid_purchases pid) := by
  constructor
  · intro f t
    constructor
    · intro hmem
      unfold GState.get_valid_moves at hmem
      rw [List.mem_flatMap] at hmem
      obtain ⟨x, hx, hmem⟩ := hmem
      cases hu : x.unit with
      | none =>
        rw [hu] at hmem
        cases hmem
      | some u =>
        rw [hu] at hmem
        dsimp only at hmem
        by_cases hcond : (decide (u.owner = pid) && !u.has_moved) = true
        case neg =>
          rw [bool_eq_false hcond] at hmem
          simp at hmem
        case pos =>
          rw [hcond] at hmem
          simp only [if_true] at hmem
          rw [List.mem_filterMap] at hmem
          obtain ⟨tox, hto, hite⟩ := hmem
          by_cases hcan : (s.can_move pid x tox).1 = true
          · rw [if_pos hcan] at hite
            have hpair := Option.some.inj hite
            rw [Prod.mk.injEq] at hpair
            obtain ⟨rfl, rfl⟩ := hpair
            rw [Bool.and_eq_true, decide_eq_true_eq] at hcond
            exact ⟨hx, ⟨u, hu, hcond.1, by simpa using hcond.2⟩, hto, hcan⟩
          · rw [if_neg hcan] at hite
            cases hite
    · rintro ⟨hf, ⟨u, hu, how, hmoved⟩, ht, hcan⟩
      unfold GState.get_valid_moves
      rw [List.mem_flatMap]
      refine ⟨f, hf, ?_⟩
      rw [hu]
      dsimp only
      have hcond : (decide (u.owner = pid) && !u.has_moved) = true := by
        simp [how, hmoved]
      rw [hcond]
      simp only [if_true]
      rw [List.mem_filterMap]
      exact ⟨t, ht, by rw [if_pos hcan]⟩
  · unfold GState.get_valid_purchases
    cases s.get_player pid with
    | none => exact List.Pairwise.nil
    | some player => exact (dedupPurchases_pairwise _ _).1

/-- Fixture for the C9 counterexample: a peasant that has already acted next
to an empty own hex (its internal move is legal but not enumerated). -/
def c9hD : Hex := { q := 0, r := 0, owner := some 0, unit := some ⟨UnitType.peasant, 0, true⟩ }

def c9hE : Hex := { q := 1, r := 0, owner := some 0 }

def c9board : Board := { width := 2, height := 1, hexes := [c9hD, c9hE] }

def c9state : GState :=
  { board := c9board, players := [(Player.mk 0 false []).update_regions c9board] }

/-- C9 counterexample: an internal move of a unit that has already acted is
legal per `can_move` (internal moves are unlimited) but `get_valid_moves`
omits it, because the enumeration filters out units with the has-acted
flag. -/
theorem valid_move_enumeration_counterexample :
    (c9state.can_move 0 c9hD c9hE).1 = true ∧
    c9hD ∈ c9state.board.get_territory 0 ∧
    c9hD.unit = some ⟨UnitType.peasant, 0, true⟩ ∧
    c9hE ∈ c9state.board.neighbors c9hD ∧
    (c9hD, c9hE) ∉ c9state.get_valid_moves 0 := by decide

theorem valid_move_enumeration_witness :
    (c1hA, c1hB) ∈ c1state.get_valid_moves 0 :=
  ((valid_move_enumeration c1state 0).1 c1hA c1hB).mpr
    ⟨by decide, ⟨⟨UnitType.knight, 0, false⟩, by decide, rfl, rfl⟩, by decide, by decide⟩

/-! ## C6: attack-by-purchase payment -/

theorem findSome?_eq_some_split {α β : Type} (l : List α) (f : α → Option β) (b : β)
    (h : l.findSome? f = some b) :
    ∃ l1 a l2, l = l1 ++ a :: l2 ∧ f a = some b ∧ ∀ x ∈ l1, f x = none := by
  induction l with
  | nil => simp [List.findSome?] at h
  | cons a as ih =>
    rw [List.findSome?_cons] at h
    cases hfa : f a with
    | some c =>
      rw [hfa] at h
      simp at h
      refine ⟨[], a, as, rfl, ?_, by intro x hx; cases hx⟩
      rw [hfa, h]
    | none =>
      rw [hfa] at h
      simp at h
      obtain ⟨l1, a', l2, heq, hfa', hnone⟩ := ih h
      refine ⟨a :: l1, a', l2, by rw [heq]; rfl, hfa', ?_⟩
      intro x hx
      rcases List.mem_cons.mp hx with rfl | hx'
      · exact hfa
      · exact hnone x hx'

theorem getC_isSome_setAt (b : Board) (c : Coord) (f : Hex → Hex) (c' : Coord)
    (hf : PreservesCoord f) :
    ((b.setAt c f).getC c').isSome = (b.getC c').isSome := by
  rw [Board.getC_setAt b c f c' hf]
  cases b.getC c' <;> rfl

theorem unitAt_after_place (b : Board) (c : Coord) (u : GameUnit)
    (hsome : (b.getC c).isSome = true) :
    (b.setAt c (fun h => { h with unit := some u })).unitAt c = some u := by
  unfold Board.unitAt
  rw [Board.getC_setAt_self b c (fun h => { h with unit := some u })
    (fun h => ⟨rfl, rfl⟩)]
  cases hg : b.getC c with
  | none => rw [hg] at hsome; cases hsome
  | some h => rfl

/-- The C6 conclusion: the paying region is the first qualifying region in
neighbor-scan order around the target, exactly that one region's gold is
reduced by the cost at the deduction step, and the purchased unit lands with
its has-acted flag set. -/
def attackBuySpec (s : GState) (pid : Nat) (ut : UnitType) (tq tr : Int)
    (t : Hex) (i : Nat) : Prop :=
  (∃ player, s.get_player pid = some player ∧
    ∃ l1 n l2, s.board.neighbors t = l1 ++ n :: l2 ∧
      n.owner = some pid ∧
      (∃ reg, player.regionEntryForHex n.coord = some (i, reg) ∧ reg.gold ≥ ut.cost) ∧
      (∀ n' ∈ l1, n'.owner = some pid →
        ∀ j reg', player.regionEntryForHex n'.coord = some (j, reg') →
          reg'.gold < ut.cost)) ∧
  ((s.execute_buy pid ut tq tr).2.success = true ∧
   (s.execute_buy pid ut tq tr).2.unit = some ⟨ut, pid, true⟩ ∧
   (s.execute_buy pid ut tq tr).1.board.unitAt t.coord = some ⟨ut, pid, true⟩ ∧
   (∀ p2 ∈ s.players, p2.id ≠ pid → p2 ∈ (s.deductGold pid i ut.cost).players) ∧
   (∀ player, s.get_player pid = some player →
     ∃ player', (s.deductGold pid i ut.cost).get_player pid = some player' ∧
       player'.regions.length = player.regions.length ∧
       ∀ j, player'.regions[j]? =
         if j = i then (player.regions[j]?).map
           (fun r0 => { r0 with gold := r0.gold - ut.cost })
         else player.regions[j]?))

theorem updatePlayer_board (s : GState) (pid : Nat) (f : Player → Player) :
    (s.updatePlayer pid f).board = s.board := rfl

theorem deductGold_board (s : GState) (pid ridx : Nat) (cost : Int) :
    (s.deductGold pid ridx cost).board = s.board := rfl

theorem get_player_updatePlayer (s : GState) (pid : Nat) (f : Player → Player)
    (hid : ∀ p, (f p).id = p.id) (player : Player)
    (hgp : s.get_player pid = some player) :
    (s.updatePlayer pid f).get_player pid = some (f player) := by
  unfold GState.get_player GState.updatePlayer at *
  rw [List.find?_map]
  have hcomp : ((fun p : Player => decide (p.id = pid)) ∘
      (fun p => if p.id = pid then f p else p)) =
      (fun p : Player => decide (p.id = pid)) := by
    funext p
    simp only [Function.comp_apply]
    split
    · rw [hid]
    · rfl
  rw [hcomp, hgp]
  have hpid : player.id = pid := by
    have := List.find?_some hgp
    simpa using this
  simp only [Option.map_some']
  rw [if_pos hpid]

theorem can_buy_attack_pays_first (s : GState) (pid : Nat) (ut : UnitType)
    (t : Hex) (e : Nat) (i : Nat) (msg : String)
    (hown : t.owner = some e) (hne : e ≠ pid)
    (hcan : s.can_buy pid ut t = (true, msg, some i)) :
    ∃ player, s.get_player pid = some player ∧
      ∃ l1 n l2, s.board.neighbors t = l1 ++ n :: l2 ∧
        n.owner = some pid ∧
        (∃ reg, player.regionEntryForHex n.coord = some (i, reg) ∧ reg.gold ≥ ut.cost) ∧
        (∀ n' ∈ l1, n'.owner = some pid →
          ∀ j reg', player.regionEntryForHex n'.coord = some (j, reg') →
            reg'.gold < ut.cost) := by
  have hto : t.owner ≠ some pid := by
    rw [hown]
    intro hx
    exact hne (by injection hx)
  unfold GState.can_buy at hcan
  cases hgp : s.get_player pid with
  | none =>
    rw [hgp] at hcan
    simp at hcan
  | some player =>
    rw [hgp] at hcan
    dsimp only at hcan
    rw [if_neg (fun hx : t.terrain = Terrain.grave ∧ t.owner = some pid =>
      hto hx.2)] at hcan
    by_cases hsea : t.terrain = Terrain.sea
    · rw [if_pos hsea] at hcan
      simp at hcan
    rw [if_neg hsea, if_neg hto, hown] at hcan
    dsimp only at hcan
    by_cases hdef : ut.strength ≤ s.get_defense_strength t
    · rw [if_pos hdef] at hcan
      simp at hcan
    rw [if_neg hdef] at hcan
    split at hcan
    case _ j heq =>
      simp only [Prod.mk.injEq] at hcan
      obtain ⟨-, -, hji⟩ := hcan
      injection hji with hji
      subst hji
      obtain ⟨l1, n, l2, hsplit, hfn, hl1⟩ := findSome?_eq_some_split _ _ _ heq
      by_cases hno : n.owner = some pid
      case neg =>
        rw [if_neg hno] at hfn
        cases hfn
      rw [if_pos hno] at hfn
      cases hre : player.regionEntryForHex n.coord with
      | none =>
        rw [hre] at hfn
        cases hfn
      | some en =>
        obtain ⟨j0, reg0⟩ := en
        rw [hre] at hfn
        dsimp only at hfn
        by_cases hg : reg0.gold ≥ ut.cost
        case neg =>
          rw [if_neg hg] at hfn
          cases hfn
        rw [if_pos hg] at hfn
        injection hfn with hfn
        subst hfn
        refine ⟨player, rfl, l1, n, l2, hsplit, hno, ⟨reg0, hre, hg⟩, ?_⟩
        intro n' hn' hno' j' reg' hre'
        have hfz := hl1 n' hn'
        rw [if_pos hno', hre'] at hfz
        dsimp only at hfz
        by_cases hg' : reg'.gold ≥ ut.cost
        · rw [if_pos hg'] at hfz
          cases hfz
        · omega
    case _ heq =>
      simp at hcan

/-- C6 (amended): a legal attack-by-purchase requires the target hex to be
owned by **another player** (an unowned target is rejected as invalid);
payment is drawn from exactly one region — the first adjacent friendly
region with sufficient gold in neighbor-scan order — and the purchased unit
is placed with its has-acted flag set. -/
theorem attack_by_purchase_payment (s : GState) (pid : Nat) (ut : UnitType)
    (tq tr : Int) (t : Hex) (e : Nat) (i : Nat) (msg : String)
    (hget : s.board.get tq tr = some t)
    (hown : t.owner = some e) (hne : e ≠ pid)
    (hcan : s.can_buy pid ut t = (true, msg, some i)) :
    attackBuySpec s pid ut tq tr t i := by
  have hto : t.owner ≠ some pid := by
    rw [hown]
    intro hx
    exact hne (by injection hx)
  constructor
  · exact can_buy_attack_pays_first s pid ut t e i msg hown hne hcan
  · have hcoord : t.coord = (tq, tr) := by
      obtain ⟨h1, h2, _⟩ := Board.get_eq_some s.board tq tr t hget
      simp [Hex.coord, h1, h2]
    have hbase : (s.board.getC t.coord).isSome = true := by
      rw [hcoord]
      show (s.board.get tq tr).isSome = true
      rw [hget]
      rfl
    unfold GState.execute_buy
    rw [hget]
    dsimp only
    rw [hcan]
    dsimp only
    refine ⟨rfl, rfl, ?_, ?_, ?_⟩
    · apply unitAt_after_place
      repeat' first
      | exact hbase
      | rw [deductGold_board]
      | rw [updatePlayer_board]
      | rw [getC_isSome_setAt _ _ (fun h => { h with terrain := Terrain.land })
          _ (fun h => ⟨rfl, rfl⟩)]
      | rw [getC_isSome_setAt _ _ (fun h => { h with owner := some pid })
          _ (fun h => ⟨rfl, rfl⟩)]
      | rw [getC_isSome_setAt _ _
          (fun h => if h.terrain = Terrain.grave then { h with terrain := Terrain.land }
            else h) _ (fun h => by dsimp only; split <;> exact ⟨rfl, rfl⟩)]
      | split
    · intro p2 hp2 hne2
      unfold GState.deductGold GState.updatePlayer
      dsimp only
      exact List.mem_map.mpr ⟨p2, hp2, by rw [if_neg hne2]⟩
    · intro pl hpl
      refine ⟨{ pl with
          regions := pl.regions.mapIdx
            (fun j r => if j = i then { r with gold := r.gold - ut.cost } else r) },
        ?_, ?_, ?_⟩
      · exact get_player_updatePlayer s pid
          (fun p => { p with
            regions := p.regions.mapIdx
              (fun j r => if j = i then { r with gold := r.gold - ut.cost } else r) })
          (fun p => rfl) pl hpl
      · simp [List.length_mapIdx]
      · intro j
        simp only [List.getElem?_mapIdx]
        by_cases hj : j = i
        · subst hj
          rw [if_pos rfl]
          cases pl.regions[j]? <;> simp
        · rw [if_neg hj]
          cases pl.regions[j]? <;> simp [hj]

/-- Fixture for C6: two hexes of player 0 (one funded region), next to a
target hex. -/
def c6hF : Hex := { q := 0, r := 0, owner := some 0 }

def c6hG : Hex := { q := 1, r := 0, owner := some 0 }

/-- Unowned target hex (for the counterexample). -/
def c6hU : Hex := { q := 2, r := 0 }

def c6board : Board := { width := 3, height := 1, hexes := [c6hF, c6hG, c6hU] }

def c6player : Player :=
  let base := (Player.mk 0 false []).update_regions c6board
  { base with regions := base.regions.map (fun r => { r with gold := 50 }) }

def c6state : GState := { board := c6board, players := [c6player] }

/-- C6 counterexample: an unowned target adjacent to the purchaser's
territory, with the new unit's strength above the defense strength and an
adjacent region holding enough gold, is **not** a legal attack-by-purchase:
the buy is rejected ("Invalid target") and no gold is deducted. -/
theorem attack_by_purchase_counterexample :
    c6hU.owner = none ∧
    (∃ n ∈ c6state.board.neighbors c6hU, n.owner = some 0) ∧
    UnitType.peasant.strength > c6state.get_defense_strength c6hU ∧
    (∃ en, c6player.regionEntryForHex (1, 0) = some en ∧
      en.2.gold ≥ UnitType.peasant.cost) ∧
    (c6state.execute_buy 0 UnitType.peasant 2 0).2.success = false ∧
    (c6state.execute_buy 0 UnitType.peasant 2 0).1 = c6state := by decide

/-- Enemy-owned target hex (for the witness). -/
def c6whH : Hex := { q := 2, r := 0, owner := some 1 }

def c6wboard : Board := { width := 3, height := 1, hexes := [c6hF, c6hG, c6whH] }

def c6wplayer : Player :=
  let base := (Player.mk 0 false []).update_regions c6wboard
  { base with regions := base.regions.map (fun r => { r with gold := 50 }) }

def c6wstate : GState :=
  { board := c6wboard,
    players := [c6wplayer, (Player.mk 1 false []).update_regions c6wboard] }

theorem attack_by_purchase_payment_witness :
    c6wstate.board.get 2 0 = some c6whH ∧ c6whH.owner = some 1 ∧ (1 : Nat) ≠ 0 ∧
    c6wstate.can_buy 0 UnitType.peasant c6whH = (true, "OK", some 0) ∧
    attackBuySpec c6wstate 0 UnitType.peasant 2 0 c6whH 0 :=
  ⟨by decide, rfl, by decide, by decide,
   attack_by_purchase_payment c6wstate 0 UnitType.peasant 2 0 c6whH 1 0 "OK"
     (by decide) rfl (by decide) (by decide)⟩

/-! ## C4: upkeep payment and starvation order -/

/-- Total upkeep of the units sitting on a list of coordinates. -/
def sumUpkeepList (b : Board) (l : List Coord) : Int := (l.map b.upkeepAt).sum

/-- Board after starving every unit on the given coordinates. -/
def killStarved (b : Board) (cs : List Coord) : Board :=
  cs.foldl (fun b c =>
    b.setAt c (fun h => { h with unit := none, terrain := Terrain.grave })) b

theorem upkeepAt_setAt_ne (b : Board) (c : Coord) (f : Hex → Hex) (c' : Coord)
    (hf : PreservesCoord f) (hne : c' ≠ c) :
    (b.setAt c f).upkeepAt c' = b.upkeepAt c' := by
  unfold Board.upkeepAt Board.unitAt
  rw [Board.getC_setAt_ne b c f c' hf hne]

theorem killStarved_getC_not_mem (b : Board) (cs : List Coord) (c : Coord)
    (hc : c ∉ cs) : (killStarved b cs).getC c = b.getC c := by
  induction cs generalizing b with
  | nil => rfl
  | cons d rest ih =>
    have hcd : c ≠ d := fun hx => hc (hx ▸ List.mem_cons_self d rest)
    have hcr : c ∉ rest := fun hx => hc (List.mem_cons_of_mem d hx)
    show (killStarved (b.setAt d _) rest).getC c = b.getC c
    rw [ih _ hcr]
    exact Board.getC_setAt_ne b d _ c (fun h => ⟨rfl, rfl⟩) hcd

theorem killStarved_getC_mem (b : Board) (cs : List Coord) (c : Coord)
    (hnd : cs.Nodup) (hc : c ∈ cs) :
    (killStarved b cs).getC c =
      (b.getC c).map (fun h => { h with unit := none, terrain := Terrain.grave }) := by
  induction cs generalizing b with
  | nil => cases hc
  | cons d rest ih =>
    rw [List.nodup_cons] at hnd
    rcases List.mem_cons.mp hc with rfl | hcr
    · show (killStarved (b.setAt c _) rest).getC c = _
      rw [killStarved_getC_not_mem _ _ _ hnd.1]
      exact Board.getC_setAt_self b c _ (fun h => ⟨rfl, rfl⟩)
    · have hcd : c ≠ d := by
        intro hx
        subst hx
        exact hnd.1 hcr
      show (killStarved (b.setAt d _) rest).getC c = _
      rw [ih _ hnd.2 hcr]
      rw [Board.getC_setAt_ne b d
        (fun h => { h with unit := none, terrain := Terrain.grave }) c
        (fun h => ⟨rfl, rfl⟩) hcd]

theorem insertByUpkeep_perm (b : Board) (c : Coord) (l : List Coord) :
    (insertByUpkeep b c l).Perm (c :: l) := by
  induction l with
  | nil => exact List.Perm.refl _
  | cons x xs ih =>
    unfold insertByUpkeep
    split
    · exact List.Perm.refl _
    · exact (ih.cons x).trans (List.Perm.swap c x xs)

theorem sortByUpkeep_perm (b : Board) (l : List Coord) :
    (sortByUpkeep b l).Perm l := by
  induction l with
  | nil => exact List.Perm.refl _
  | cons c cs ih =>
    exact (insertByUpkeep_perm b c (sortByUpkeep b cs)).trans (ih.cons c)

theorem insertByUpkeep_sorted (b : Board) (c : Coord) (l : List Coord)
    (hs : l.Pairwise (fun x y => b.upkeepAt x ≤ b.upkeepAt y)) :
    (insertByUpkeep b c l).Pairwise (fun x y => b.upkeepAt x ≤ b.upkeepAt y) := by
  induction l with
  | nil => simp [insertByUpkeep]
  | cons x xs ih =>
    rw [List.pairwise_cons] at hs
    unfold insertByUpkeep
    split
    case isTrue hcx =>
      rw [List.pairwise_cons]
      refine ⟨?_, List.pairwise_cons.mpr hs⟩
      intro y hy
      rcases List.mem_cons.mp hy with rfl | hy'
      · exact hcx
      · exact le_trans hcx (hs.1 y hy')
    case isFalse hcx =>
      rw [List.pairwise_cons]
      refine ⟨?_, ih hs.2⟩
      intro y hy
      have hy' := (insertByUpkeep_perm b c xs).mem_iff.mp hy
      rcases List.mem_cons.mp hy' with rfl | hy''
      · omega
      · exact hs.1 y hy''

theorem sortByUpkeep_sorted (b : Board) (l : List Coord) :
    (sortByUpkeep b l).Pairwise (fun x y => b.upkeepAt x ≤ b.upkeepAt y) := by
  induction l with
  | nil => exact List.Pairwise.nil
  | cons c cs ih => exact insertByUpkeep_sorted b c _ ih

theorem foldl_add_upkeep (b : Board) (l : List Coord) (init : Int) :
    l.foldl (fun total c => total + b.upkeepAt c) init = init + sumUpkeepList b l := by
  induction l generalizing init with
  | nil => simp [sumUpkeepList]
  | cons c cs ih =>
    rw [List.foldl_cons, ih]
    unfold sumUpkeepList
    rw [List.map_cons, List.sum_cons]
    omega

theorem get_upkeep_eq_sum (r : Region) (b : Board) :
    r.get_upkeep b = sumUpkeepList b r.hexes := by
  unfold Region.get_upkeep
  rw [foldl_add_upkeep]
  omega

theorem sumUpkeepList_filter (b : Board) (l : List Coord) :
    sumUpkeepList b (l.filter (fun c => (b.unitAt c).isSome)) = sumUpkeepList b l := by
  induction l with
  | nil => rfl
  | cons c cs ih =>
    rw [List.filter_cons]
    by_cases hc : (b.unitAt c).isSome = true
    · rw [if_pos hc]
      unfold sumUpkeepList at *
      rw [List.map_cons, List.sum_cons, List.map_cons, List.sum_cons, ih]
    · rw [if_neg hc]
      have hz : b.upkeepAt c = 0 := by
        unfold Board.upkeepAt
        cases hu : b.unitAt c with
        | none => rfl
        | some u => rw [hu] at hc; simp at hc
      unfold sumUpkeepList at *
      rw [List.map_cons, List.sum_cons, ih, hz]
      omega

theorem sumUpkeepList_perm (b : Board) {l1 l2 : List Coord} (h : l1.Perm l2) :
    sumUpkeepList b l1 = sumUpkeepList b l2 :=
  (h.map b.upkeepAt).sum_eq

theorem starveLoop_spec (b : Board) (l : List Coord) (g t : Int) (hnd : l.Nodup) :
    ∃ k, k ≤ l.length ∧
      (starveLoop b l g t).2.1 = l.take k ∧
      (starveLoop b l g t).2.2 = t - sumUpkeepList b (l.take k) ∧
      (starveLoop b l g t).1 = killStarved b (l.take k) ∧
      (∀ j, j < k → g < t - sumUpkeepList b (l.take j)) ∧
      (g ≥ t - sumUpkeepList b (l.take k) ∨ k = l.length) := by
  induction l generalizing b t with
  | nil =>
    refine ⟨0, Nat.le_refl _, rfl, by simp [starveLoop, sumUpkeepList], rfl, ?_,
      Or.inr rfl⟩
    intro j hj
    omega
  | cons c rest ih =>
    rw [List.nodup_cons] at hnd
    by_cases hg : g < t
    case neg =>
      unfold starveLoop
      rw [if_neg hg]
      refine ⟨0, Nat.zero_le _, rfl, by simp [sumUpkeepList], rfl, ?_, ?_⟩
      · intro j hj
        omega
      · left
        simp only [List.take_zero, sumUpkeepList, List.map_nil, List.sum_nil]
        omega
    case pos =>
      unfold starveLoop
      rw [if_pos hg]
      obtain ⟨k', hk'le, h1, h2, h3, h4, h5⟩ :=
        ih (b.setAt c (fun h => { h with unit := none, terrain := Terrain.grave }))
          (t - b.upkeepAt c) hnd.2
      have hup : ∀ x ∈ rest,
          (b.setAt c (fun h => { h with unit := none, terrain := Terrain.grave })).upkeepAt x
            = b.upkeepAt x := by
        intro x hx
        refine upkeepAt_setAt_ne b c _ x (fun h => ⟨rfl, rfl⟩) ?_
        intro hxc
        subst hxc
        exact hnd.1 hx
      have hsum : ∀ j, sumUpkeepList
          (b.setAt c (fun h => { h with unit := none, terrain := Terrain.grave }))
          (rest.take j) = sumUpkeepList b (rest.take j) := by
        intro j
        unfold sumUpkeepList
        congr 1
        apply List.map_congr_left
        intro x hx
        exact hup x (List.mem_of_mem_take hx)
      have hsumcons : ∀ j, sumUpkeepList b ((c :: rest).take (j + 1)) =
          b.upkeepAt c + sumUpkeepList b (rest.take j) := by
        intro j
        rw [List.take_succ_cons]
        unfold sumUpkeepList
        rw [List.map_cons, List.sum_cons]
      refine ⟨k' + 1, by simpa using Nat.succ_le_succ hk'le, ?_, ?_, ?_, ?_, ?_⟩
      · rw [List.take_succ_cons]
        dsimp only
        rw [h1]
      · dsimp only
        rw [h2, hsum, hsumcons]
        omega
      · dsimp only
        rw [h3]
        rw [List.take_succ_cons]
        rfl
      · intro j hj
        cases j with
        | zero =>
          simp only [List.take_zero, sumUpkeepList, List.map_nil, List.sum_nil]
          omega
        | succ j' =>
          have := h4 j' (by omega)
          rw [hsum, hsumcons] at *
          omega
      · rcases h5 with h5 | h5
        · left
          rw [hsum] at h5
          rw [hsumcons]
          omega
        · right
          rw [h5]
          rfl

/-- The order in which `pay_upkeep` starves units: the region's occupied
hexes, sorted by unit upkeep (weakest first). -/
def starvingOrder (r : Region) (b : Board) : List Coord :=
  sortByUpkeep b (r.hexes.filter (fun c => (b.unitAt c).isSome))

theorem sumUpkeepList_take_drop (b : Board) (l : List Coord) (k : Nat) :
    sumUpkeepList b (l.take k) + sumUpkeepList b (l.drop k) = sumUpkeepList b l := by
  unfold sumUpkeepList
  rw [← List.sum_append, ← List.map_append, List.take_append_drop]

/-- C4: when gold covers maintenance but not the full total, `pay_upkeep`
deducts the maintenance and starves units in non-decreasing upkeep order,
stopping as soon as the remaining gold covers the remaining units' upkeep;
each starved unit is removed and its hex becomes a grave, every other hex is
untouched, and the returned list is exactly the starved hexes.  When gold
covers the full total it is deducted and nothing starves. -/
theorem pay_upkeep_starvation (r : Region) (b : Board) (hnd : r.hexes.Nodup) :
    (r.gold ≥ r.get_territory_maintenance + r.get_upkeep b →
      r.pay_upkeep b =
        ({ r with gold := r.gold - (r.get_territory_maintenance + r.get_upkeep b) },
          b, [])) ∧
    (r.get_territory_maintenance ≤ r.gold →
      r.gold < r.get_territory_maintenance + r.get_upkeep b →
      ∃ k, (r.pay_upkeep b).2.2 = (starvingOrder r b).take k ∧
        List.Pairwise (fun x y => b.upkeepAt x ≤ b.upkeepAt y) (r.pay_upkeep b).2.2 ∧
        (∀ j, j < k → r.gold - r.get_territory_maintenance <
          sumUpkeepList b ((starvingOrder r b).drop j)) ∧
        r.gold - r.get_territory_maintenance ≥
          sumUpkeepList b ((starvingOrder r b).drop k) ∧
        (∀ c ∈ (r.pay_upkeep b).2.2, (b.unitAt c).isSome = true ∧
          (r.pay_upkeep b).2.1.getC c =
            (b.getC c).map
              (fun h => { h with unit := none, terrain := Terrain.grave })) ∧
        (∀ c, c ∉ (r.pay_upkeep b).2.2 → (r.pay_upkeep b).2.1.getC c = b.getC c) ∧
        (r.pay_upkeep b).1.gold = max 0 (r.gold - r.get_territory_maintenance -
          sumUpkeepList b ((starvingOrder r b).drop k))) := by
  constructor
  · intro hge
    unfold Region.pay_upkeep
    rw [if_pos hge]
  · intro hmc hlt
    have hnb : ¬(r.gold ≥ r.get_territory_maintenance + r.get_upkeep b) := by omega
    have hndf : (r.hexes.filter (fun c => (b.unitAt c).isSome)).Nodup :=
      hnd.filter _
    have hnds : (starvingOrder r b).Nodup :=
      ((sortByUpkeep_perm b _).nodup_iff).mpr hndf
    have huk : r.get_upkeep b = sumUpkeepList b (starvingOrder r b) := by
      rw [get_upkeep_eq_sum]
      rw [← sumUpkeepList_filter b r.hexes]
      exact (sumUpkeepList_perm b (sortByUpkeep_perm b _)).symm
    obtain ⟨k, hkle, h1, h2, h3, h4, h5⟩ := starveLoop_spec b (starvingOrder r b)
      (r.gold - r.get_territory_maintenance) (r.get_upkeep b) hnds
    have hres : r.pay_upkeep b =
        ({ r with gold := max 0 ((r.gold - r.get_territory_maintenance) -
            (starveLoop b (starvingOrder r b)
              (r.gold - r.get_territory_maintenance) (r.get_upkeep b)).2.2) },
          (starveLoop b (starvingOrder r b)
            (r.gold - r.get_territory_maintenance) (r.get_upkeep b)).1,
          (starveLoop b (starvingOrder r b)
            (r.gold - r.get_territory_maintenance) (r.get_upkeep b)).2.1) := by
      unfold Region.pay_upkeep
      rw [if_neg hnb, if_pos hmc]
      rfl
    rw [hres]
    dsimp only
    have hdropk : r.get_upkeep b - sumUpkeepList b ((starvingOrder r b).take k) =
        sumUpkeepList b ((starvingOrder r b).drop k) := by
      have := sumUpkeepList_take_drop b (starvingOrder r b) k
      omega
    refine ⟨k, h1, ?_, ?_, ?_, ?_, ?_, ?_⟩
    · rw [h1]
      exact List.Pairwise.sublist (List.take_sublist k _) (sortByUpkeep_sorted b _)
    · intro j hj
      have := h4 j hj
      have hsp := sumUpkeepList_take_drop b (starvingOrder r b) j
      omega
    · rcases h5 with h5 | h5
      · omega
      · rw [h5, List.drop_length]
        simp only [sumUpkeepList, List.map_nil, List.sum_nil]
        omega
    · intro c hc
      rw [h1] at hc
      have hcs : c ∈ starvingOrder r b := List.mem_of_mem_take hc
      have hcf : c ∈ r.hexes.filter (fun c => (b.unitAt c).isSome) :=
        (sortByUpkeep_perm b _).mem_iff.mp hcs
      refine ⟨by simpa using List.of_mem_filter hcf, ?_⟩
      rw [h3]
      exact killStarved_getC_mem b _ c (hnds.sublist (List.take_sublist k _)) hc
    · intro c hc
      rw [h1] at hc
      rw [h3]
      exact killStarved_getC_not_mem b _ c hc
    · rw [h2]
      congr 1
      omega

def c4hA : Hex := { q := 0, r := 0, owner := some 0, unit := some ⟨UnitType.knight, 0, false⟩ }

def c4hB : Hex := { q := 1, r := 0, owner := some 0, unit := some ⟨UnitType.peasant, 0, false⟩ }

def c4hC : Hex := { q := 2, r := 0, owner := some 0 }

def c4board : Board := { width := 3, height := 1, hexes := [c4hA, c4hB, c4hC] }

def c4region : Region :=
  { hexes := [(0, 0), (1, 0), (2, 0)], has_capital := true, gold := 21 }

theorem pay_upkeep_starvation_witness :
    c4region.hexes.Nodup ∧
    c4region.get_territory_maintenance ≤ c4region.gold ∧
    c4region.gold < c4region.get_territory_maintenance + c4region.get_upkeep c4board ∧
    (∃ k, (c4region.pay_upkeep c4board).2.2 = (starvingOrder c4region c4board).take k ∧
      List.Pairwise (fun x y => c4board.upkeepAt x ≤ c4board.upkeepAt y)
        (c4region.pay_upkeep c4board).2.2 ∧
      (∀ j, j < k → c4region.gold - c4region.get_territory_maintenance <
        sumUpkeepList c4board ((starvingOrder c4region c4board).drop j)) ∧
      c4region.gold - c4region.get_territory_maintenance ≥
        sumUpkeepList c4board ((starvingOrder c4region c4board).drop k) ∧
      (∀ c ∈ (c4region.pay_upkeep c4board).2.2, (c4board.unitAt c).isSome = true ∧
        (c4region.pay_upkeep c4board).2.1.getC c =
          (c4board.getC c).map
            (fun h => { h with unit := none, terrain := Terrain.grave })) ∧
      (∀ c, c ∉ (c4region.pay_upkeep c4board).2.2 →
        (c4region.pay_upkeep c4board).2.1.getC c = c4board.getC c) ∧
      (c4region.pay_upkeep c4board).1.gold =
        max 0 (c4region.gold - c4region.get_territory_maintenance -
          sumUpkeepList c4board ((starvingOrder c4region c4board).drop k))) :=
  ⟨by decide, by decide, by decide,
    (pay_upkeep_starvation c4region c4board (by decide)).2 (by decide) (by decide)⟩

/-! ## Connectivity of the flood fill (`Board.get_region` / `Board.get_regions`) -/

/-- One-step adjacency inside owner `o`'s territory: some neighbor of the hex
at `c` has owner `o` and coordinate `d`. -/
def Board.OwnedAdj (b : Board) (o : Nat) (c d : Coord) : Prop :=
  ∃ h n, b.getC c = some h ∧ n ∈ b.neighbors h ∧ n.owner = some o ∧ n.coord = d

/-- Same-owner connectivity: the reflexive-transitive closure of
`Board.OwnedAdj`, rooted at an owned hex. -/
inductive Board.Reach (b : Board) (o : Nat) (s : Coord) : Coord → Prop
  | refl : (∃ h, b.getC s = some h ∧ h.owner = some o) → Board.Reach b o s s
  | tail {c d : Coord} : Board.Reach b o s c → b.OwnedAdj o c d → Board.Reach b o s d

theorem Board.mem_neighbors (b : Board) (h n : Hex) (hn : n ∈ b.neighbors h) :
    n ∈ b.hexes ∧ ∃ d ∈ HEX_DIRECTIONS, n.q = h.q + d.1 ∧ n.r = h.r + d.2 := by
  unfold Board.neighbors at hn
  rw [List.mem_filterMap] at hn
  obtain ⟨d, hd, hget⟩ := hn
  obtain ⟨hq, hr, hmem⟩ := b.get_eq_some _ _ n hget
  exact ⟨hmem, d, hd, hq, hr⟩

theorem Board.mem_neighbors_intro (b : Board) (hwf : b.WF) (h n : Hex)
    (hmem : n ∈ b.hexes) (d : Coord) (hd : d ∈ HEX_DIRECTIONS)
    (hq : n.q = h.q + d.1) (hr : n.r = h.r + d.2) : n ∈ b.neighbors h := by
  unfold Board.neighbors
  rw [List.mem_filterMap]
  refine ⟨d, hd, ?_⟩
  have hg := b.getC_of_mem hwf n hmem
  unfold Board.getC at hg
  rw [← hq, ← hr]
  simpa [Hex.coord] using hg

theorem neg_mem_HEX_DIRECTIONS (d : Coord) (hd : d ∈ HEX_DIRECTIONS) :
    ((-d.1, -d.2) : Coord) ∈ HEX_DIRECTIONS := by
  simp only [HEX_DIRECTIONS, List.mem_cons, List.not_mem_nil, or_false] at hd
  rcases hd with h | h | h | h | h | h <;> subst h <;> decide

theorem Board.OwnedAdj.target (b : Board) (hwf : b.WF) (o : Nat) (c d : Coord)
    (h : b.OwnedAdj o c d) : ∃ n, b.getC d = some n ∧ n.owner = some o := by
  obtain ⟨h0, n, _, hn, how, hcoord⟩ := h
  have hmem := (b.mem_neighbors h0 n hn).1
  exact ⟨n, hcoord ▸ b.getC_of_mem hwf n hmem, how⟩

theorem ownedAdj_symm (b : Board) (hwf : b.WF) (o : Nat) (c d : Coord)
    (hc : ∃ h, b.getC c = some h ∧ h.owner = some o)
    (h : b.OwnedAdj o c d) : b.OwnedAdj o d c := by
  obtain ⟨h0, n, hget, hn, how, hcoord⟩ := h
  obtain ⟨hc0, hgc, hoc⟩ := hc
  rw [hget] at hgc
  injection hgc with hEq
  subst hEq
  obtain ⟨hcc, hcm⟩ := b.getC_eq_some c h0 hget
  obtain ⟨hnmem, dir, hdir, hnq, hnr⟩ := b.mem_neighbors h0 n hn
  refine ⟨n, h0, hcoord ▸ b.getC_of_mem hwf n hnmem, ?_, hoc, hcc⟩
  refine b.mem_neighbors_intro hwf n h0 hcm (-dir.1, -dir.2)
    (neg_mem_HEX_DIRECTIONS dir hdir) (by dsimp only; omega) (by dsimp only; omega)

theorem Board.Reach.target_owned (b : Board) (hwf : b.WF) {o : Nat} {s c : Coord}
    (hr : b.Reach o s c) : ∃ h, b.getC c = some h ∧ h.owner = some o := by
  induction hr with
  | refl h => exact h
  | tail _ hadj _ => exact Board.OwnedAdj.target b hwf o _ _ hadj

theorem Board.Reach.trans {b : Board} {o : Nat} {s c d : Coord}
    (h1 : b.Reach o s c) (h2 : b.Reach o c d) : b.Reach o s d := by
  induction h2 with
  | refl _ => exact h1
  | tail _ hadj ih => exact Board.Reach.tail ih hadj

theorem Board.Reach.symm (b : Board) (hwf : b.WF) {o : Nat} {s c : Coord}
    (hr : b.Reach o s c) : b.Reach o c s := by
  induction hr with
  | refl h => exact Board.Reach.refl h
  | tail hp hadj ih =>
    have hc0 := Board.Reach.target_owned b hwf hp
    have hadj2 := ownedAdj_symm b hwf _ _ _ hc0 hadj
    have hd := Board.OwnedAdj.target b hwf _ _ _ hadj
    exact Board.Reach.trans (Board.Reach.tail (Board.Reach.refl hd) hadj2) ih

theorem filter_length_lt {α : Type} (p : α → Bool) {l : List α} {x : α}
    (hx : x ∈ l) (hpx : p x = false) : (l.filter p).length < l.length := by
  induction l with
  | nil => cases hx
  | cons a as ih =>
    rcases List.mem_cons.mp hx with rfl | hmem
    · rw [List.filter_cons, hpx]
      simp only [Bool.false_eq_true, if_false, List.length_cons]
      exact Nat.lt_succ_of_le (List.length_filter_le p as)
    · rw [List.filter_cons]
      cases hpa : p a
      · simp only [Bool.false_eq_true, if_false, List.length_cons]
        exact Nat.lt_succ_of_lt (ih hmem)
      · simp only [if_true, List.length_cons]
        exact Nat.succ_lt_succ (ih hmem)

/-- Number of owned hexes not yet visited: the flood fill's termination
measure is `stack.length + 7 * unvisitedCount`. -/
def unvisitedCount (b : Board) (o : Nat) (visited : List Coord) : Nat :=
  (b.hexes.filter
    (fun h => decide (h.owner = some o) && decide (h.coord ∉ visited))).length

theorem unvisitedCount_lt (b : Board) (o : Nat) (c : Coord) (visited : List Coord)
    (h : Hex) (hget : b.getC c = some h) (how : h.owner = some o)
    (hnv : c ∉ visited) :
    unvisitedCount b o (c :: visited) < unvisitedCount b o visited := by
  obtain ⟨hcoord, hmem⟩ := b.getC_eq_some c h hget
  unfold unvisitedCount
  have hkey : b.hexes.filter
      (fun x => decide (x.owner = some o) && decide (x.coord ∉ c :: visited)) =
      (b.hexes.filter
        (fun x => decide (x.owner = some o) && decide (x.coord ∉ visited))).filter
        (fun x => decide (x.coord ≠ c)) := by
    rw [List.filter_filter]
    apply List.filter_congr
    intro x _
    by_cases h1 : x.coord ∈ visited <;> by_cases h2 : x.coord = c <;>
      simp [h1, h2, List.mem_cons]
  rw [hkey]
  apply filter_length_lt _ (List.mem_filter.mpr ⟨hmem, by simp [how, hcoord, hnv]⟩)
  simp [hcoord]

theorem floodPushes_length_le (b : Board) (o : Nat) (visited : List Coord) (h : Hex) :
    (b.floodPushes o visited h).length ≤ 6 := by
  have h1 : (b.floodPushes o visited h).length ≤ (b.neighbors h).length :=
    List.length_filterMap_le _ _
  have h2 : (b.neighbors h).length ≤ HEX_DIRECTIONS.length :=
    List.length_filterMap_le _ _
  exact le_trans h1 (le_trans h2 (by decide))

theorem mem_floodPushes (b : Board) (o : Nat) (visited : List Coord) (h : Hex)
    (d : Coord) :
    d ∈ b.floodPushes o visited h ↔
      ∃ n, n ∈ b.neighbors h ∧ n.coord = d ∧ d ∉ visited ∧ n.owner = some o := by
  unfold Board.floodPushes
  rw [List.mem_filterMap]
  constructor
  · rintro ⟨n, hn, hcond⟩
    split at hcond
    · rename_i hc
      simp only [Bool.and_eq_true, decide_eq_true_eq] at hc
      have hd := Option.some.inj hcond
      exact ⟨n, hn, hd, hd ▸ hc.1, hc.2⟩
    · cases hcond
  · rintro ⟨n, hn, rfl, hnv, how⟩
    refine ⟨n, hn, ?_⟩
    rw [if_pos]
    simp only [Bool.and_eq_true, decide_eq_true_eq]
    exact ⟨hnv, how⟩

/-- Main invariant proof for the flood-fill loop: given enough fuel, a stack
of owned reachable coordinates and a reachable, neighbor-closed-into-stack
visited set, the loop keeps everything it was given, only produces reachable
coordinates, and its output is closed under same-owner adjacency. -/
theorem floodLoop_spec (b : Board) (o : Nat) (s : Coord) (hwf : b.WF) :
    ∀ (fuel : Nat) (visited stack : List Coord),
      stack.length + 7 * unvisitedCount b o visited ≤ fuel →
      (∀ c ∈ stack, ∃ h, b.getC c = some h ∧ h.owner = some o) →
      (∀ c ∈ stack, b.Reach o s c) →
      (∀ c ∈ visited, b.Reach o s c) →
      (∀ c ∈ visited, ∀ d, b.OwnedAdj o c d → d ∈ visited ∨ d ∈ stack) →
      (∀ c ∈ visited, c ∈ b.floodLoop o fuel visited stack) ∧
      (∀ c ∈ stack, c ∈ b.floodLoop o fuel visited stack) ∧
      (∀ c ∈ b.floodLoop o fuel visited stack, b.Reach o s c) ∧
      (∀ c ∈ b.floodLoop o fuel visited stack, ∀ d, b.OwnedAdj o c d →
        d ∈ b.floodLoop o fuel visited stack) := by
  intro fuel
  induction fuel with
  | zero =>
    intro visited stack hm hstack hrs hrv hcl
    have hs0 : stack = [] := List.length_eq_zero.mp (by omega)
    subst hs0
    have hl : b.floodLoop o 0 visited [] = visited := rfl
    rw [hl]
    refine ⟨fun c hc => hc, ?_, hrv, ?_⟩
    · intro c hc
      cases hc
    · intro c hc d hadj
      rcases hcl c hc d hadj with hd | hd
      · exact hd
      · cases hd
  | succ fuel ih =>
    intro visited stack hm hstack hrs hrv hcl
    match stack with
    | [] =>
      have hl : b.floodLoop o (fuel + 1) visited [] = visited := rfl
      rw [hl]
      refine ⟨fun c hc => hc, ?_, hrv, ?_⟩
      · intro c hc
        cases hc
      · intro c hc d hadj
        rcases hcl c hc d hadj with hd | hd
        · exact hd
        · cases hd
    | c :: rest =>
      by_cases hcv : c ∈ visited
      · have hl : b.floodLoop o (fuel + 1) visited (c :: rest) =
            b.floodLoop o fuel visited rest := by
          simp only [Board.floodLoop]
          rw [if_pos hcv]
        rw [hl]
        have hm' : rest.length + 7 * unvisitedCount b o visited ≤ fuel := by
          simp only [List.length_cons] at hm
          omega
        have hclr : ∀ x ∈ visited, ∀ d, b.OwnedAdj o x d → d ∈ visited ∨ d ∈ rest := by
          intro x hx d hadj
          rcases hcl x hx d hadj with hd | hd
          · exact Or.inl hd
          · rcases List.mem_cons.mp hd with rfl | hd'
            · exact Or.inl hcv
            · exact Or.inr hd'
        obtain ⟨g1, g2, g3, g4⟩ := ih visited rest hm'
          (fun x hx => hstack x (List.mem_cons_of_mem c hx))
          (fun x hx => hrs x (List.mem_cons_of_mem c hx)) hrv hclr
        refine ⟨g1, ?_, g3, g4⟩
        intro x hx
        rcases List.mem_cons.mp hx with rfl | hx'
        · exact g1 x hcv
        · exact g2 x hx'
      · obtain ⟨h, hget, how⟩ := hstack c (List.mem_cons_self c rest)
        have hl : b.floodLoop o (fuel + 1) visited (c :: rest) =
            b.floodLoop o fuel (c :: visited) (b.floodPushes o visited h ++ rest) := by
          simp only [Board.floodLoop]
          rw [if_neg hcv, hget]
          dsimp only
          rw [if_pos how]
        rw [hl]
        have hu : unvisitedCount b o (c :: visited) < unvisitedCount b o visited :=
          unvisitedCount_lt b o c visited h hget how hcv
        have hp6 : (b.floodPushes o visited h).length ≤ 6 :=
          floodPushes_length_le b o visited h
        have hm' : (b.floodPushes o visited h ++ rest).length +
            7 * unvisitedCount b o (c :: visited) ≤ fuel := by
          rw [List.length_append]
          simp only [List.length_cons] at hm
          omega
        have hrc : b.Reach o s c := hrs c (List.mem_cons_self c rest)
        have hstack' : ∀ x ∈ b.floodPushes o visited h ++ rest,
            ∃ hx, b.getC x = some hx ∧ hx.owner = some o := by
          intro x hx
          rcases List.mem_append.mp hx with hx' | hx'
          · obtain ⟨n, hn, rfl, _, hno⟩ := (mem_floodPushes b o visited h x).mp hx'
            exact ⟨n, b.getC_of_mem hwf n (b.mem_neighbors h n hn).1, hno⟩
          · exact hstack x (List.mem_cons_of_mem c hx')
        have hrs' : ∀ x ∈ b.floodPushes o visited h ++ rest, b.Reach o s x := by
          intro x hx
          rcases List.mem_append.mp hx with hx' | hx'
          · obtain ⟨n, hn, rfl, _, hno⟩ := (mem_floodPushes b o visited h x).mp hx'
            exact Board.Reach.tail hrc ⟨h, n, hget, hn, hno, rfl⟩
          · exact hrs x (List.mem_cons_of_mem c hx')
        have hrv' : ∀ x ∈ c :: visited, b.Reach o s x := by
          intro x hx
          rcases List.mem_cons.mp hx with rfl | hx'
          · exact hrc
          · exact hrv x hx'
        have hcl' : ∀ x ∈ c :: visited, ∀ d, b.OwnedAdj o x d →
            d ∈ c :: visited ∨ d ∈ b.floodPushes o visited h ++ rest := by
          intro x hx d hadj
          rcases List.mem_cons.mp hx with rfl | hx'
          · obtain ⟨h0, n, hget0, hn, hno, hcoord⟩ := hadj
            rw [hget] at hget0
            injection hget0 with hEq
            subst hEq
            by_cases hdv : d ∈ visited
            · exact Or.inl (List.mem_cons_of_mem _ hdv)
            · refine Or.inr (List.mem_append.mpr (Or.inl ?_))
              exact (mem_floodPushes b o visited h d).mpr ⟨n, hn, hcoord, hdv, hno⟩
          · rcases hcl x hx' d hadj with hd | hd
            · exact Or.inl (List.mem_cons_of_mem _ hd)
            · rcases List.mem_cons.mp hd with rfl | hd'
              · exact Or.inl (List.mem_cons_self _ _)
              · exact Or.inr (List.mem_append.mpr (Or.inr hd'))
        obtain ⟨g1, g2, g3, g4⟩ := ih (c :: visited)
          (b.floodPushes o visited h ++ rest) hm' hstack' hrs' hrv' hcl'
        refine ⟨?_, ?_, g3, g4⟩
        · intro x hx
          exact g1 x (List.mem_cons_of_mem _ hx)
        · intro x hx
          rcases List.mem_cons.mp hx with rfl | hx'
          · exact g1 x (List.mem_cons_self _ _)
          · exact g2 x (List.mem_append.mpr (Or.inr hx'))

/-- `Board.get_region` computes exactly the same-owner connected component of
its seed hex. -/
theorem mem_get_region_iff (b : Board) (hwf : b.WF) (h : Hex) (o : Nat)
    (hmem : h ∈ b.hexes) (how : h.owner = some o) (d : Coord) :
    d ∈ b.get_region h ↔ b.Reach o h.coord d := by
  have hgc : b.getC h.coord = some h := b.getC_of_mem hwf h hmem
  have hone : ∀ x ∈ [h.coord], ∃ hx, b.getC x = some hx ∧ hx.owner = some o := by
    intro x hx
    rcases List.mem_singleton.mp hx with rfl
    exact ⟨h, hgc, how⟩
  have hrone : ∀ x ∈ [h.coord], b.Reach o h.coord x := by
    intro x hx
    rcases List.mem_singleton.mp hx with rfl
    exact Board.Reach.refl ⟨h, hgc, how⟩
  have hmeas : [h.coord].length + 7 * unvisitedCount b o [] ≤ b.floodFuel := by
    have := List.length_filter_le
      (fun x => decide (x.owner = some o) && decide (x.coord ∉ ([] : List Coord)))
      b.hexes
    unfold Board.floodFuel unvisitedCount
    simp only [List.length_singleton]
    omega
  obtain ⟨g1, g2, g3, g4⟩ := floodLoop_spec b o h.coord hwf b.floodFuel [] [h.coord]
    hmeas hone hrone (by intro x hx; cases hx) (by intro x hx d' _; cases hx)
  have hreg : b.get_region h = b.floodLoop o b.floodFuel [] [h.coord] := by
    unfold Board.get_region
    rw [how]
  rw [hreg]
  constructor
  · intro hd
    exact g3 d hd
  · intro hr
    induction hr with
    | refl _ => exact g2 h.coord (List.mem_singleton.mpr rfl)
    | tail _ hadj ihr => exact g4 _ ihr _ hadj

/-- The `for h in territory:` loop of `Board.get_regions`: every output
region is a full component with a seed, regions avoid the prior visited set,
every territory hex is covered, and the regions are pairwise disjoint. -/
theorem getRegionsLoop_spec (b : Board) (pid : Nat) (hwf : b.WF) :
    ∀ (ts : List Hex) (visited : List Coord),
      (∀ h ∈ ts, h ∈ b.hexes ∧ h.owner = some pid) →
      (∀ x ∈ visited, ∀ d, b.Reach pid x d → d ∈ visited) →
      (∀ S ∈ b.getRegionsLoop ts visited,
        (∃ h, h ∈ b.hexes ∧ h.owner = some pid ∧ S = b.get_region h) ∧
        ∀ x ∈ S, x ∉ visited) ∧
      (∀ h ∈ ts, h.coord ∈ visited ∨ ∃ S ∈ b.getRegionsLoop ts visited, h.coord ∈ S) ∧
      List.Pairwise (fun S1 S2 => ∀ x ∈ S1, x ∉ S2) (b.getRegionsLoop ts visited) := by
  intro ts
  induction ts with
  | nil =>
    intro visited _ _
    have hl : b.getRegionsLoop [] visited = [] := rfl
    rw [hl]
    refine ⟨?_, ?_, List.Pairwise.nil⟩
    · intro S hS
      cases hS
    · intro h hh
      cases hh
  | cons h rest ih =>
    intro visited hts hvc
    obtain ⟨hhm, hho⟩ := hts h (List.mem_cons_self h rest)
    by_cases hv : h.coord ∈ visited
    · have hl : b.getRegionsLoop (h :: rest) visited = b.getRegionsLoop rest visited := by
        simp only [Board.getRegionsLoop]
        rw [if_pos hv]
      rw [hl]
      obtain ⟨g1, g2, g3⟩ := ih visited (fun x hx => hts x (List.mem_cons_of_mem h hx)) hvc
      refine ⟨g1, ?_, g3⟩
      intro x hx
      rcases List.mem_cons.mp hx with rfl | hx'
      · exact Or.inl hv
      · exact g2 x hx'
    · have hl : b.getRegionsLoop (h :: rest) visited =
          b.get_region h :: b.getRegionsLoop rest (visited ++ b.get_region h) := by
        simp only [Board.getRegionsLoop]
        rw [if_neg hv]
      rw [hl]
      have hregmem : ∀ x, x ∈ b.get_region h ↔ b.Reach pid h.coord x :=
        mem_get_region_iff b hwf h pid hhm hho
      have hself : h.coord ∈ b.get_region h :=
        (hregmem _).mpr (Board.Reach.refl ⟨h, b.getC_of_mem hwf h hhm, hho⟩)
      have hvc' : ∀ x ∈ visited ++ b.get_region h, ∀ d, b.Reach pid x d →
          d ∈ visited ++ b.get_region h := by
        intro x hx d hrd
        rcases List.mem_append.mp hx with hx' | hx'
        · exact List.mem_append.mpr (Or.inl (hvc x hx' d hrd))
        · refine List.mem_append.mpr (Or.inr ?_)
          exact (hregmem d).mpr (Board.Reach.trans ((hregmem x).mp hx') hrd)
      obtain ⟨g1, g2, g3⟩ := ih (visited ++ b.get_region h)
        (fun x hx => hts x (List.mem_cons_of_mem h hx)) hvc'
      have hdisjv : ∀ x ∈ b.get_region h, x ∉ visited := by
        intro x hx hxv
        have hr1 : b.Reach pid h.coord x := (hregmem x).mp hx
        have hr2 : b.Reach pid x h.coord := Board.Reach.symm b hwf hr1
        exact hv (hvc x hxv h.coord hr2)
      refine ⟨?_, ?_, ?_⟩
      · intro S hS
        rcases List.mem_cons.mp hS with rfl | hS'
        · exact ⟨⟨h, hhm, hho, rfl⟩, hdisjv⟩
        · obtain ⟨hex1, hex2⟩ := g1 S hS'
          exact ⟨hex1, fun x hx hxv => hex2 x hx (List.mem_append.mpr (Or.inl hxv))⟩
      · intro h' hh'
        rcases List.mem_cons.mp hh' with rfl | hh''
        · exact Or.inr ⟨b.get_region h', List.mem_cons_self _ _, hself⟩
        · rcases g2 h' hh'' with hin | ⟨S, hS, hxS⟩
          · rcases List.mem_append.mp hin with hin' | hin'
            · exact Or.inl hin'
            · exact Or.inr ⟨b.get_region h, List.mem_cons_self _ _, hin'⟩
          · exact Or.inr ⟨S, List.mem_cons_of_mem _ hS, hxS⟩
      · refine List.Pairwise.cons ?_ g3
        intro S hS x hxreg hxS
        obtain ⟨_, hex2⟩ := g1 S hS
        exact hex2 x hxS (List.mem_append.mpr (Or.inr hxreg))

/-- `Board.get_regions` partitions the player's territory into nonempty
connected components. -/
theorem get_regions_spec (b : Board) (pid : Nat) (hwf : b.WF) :
    (∀ S ∈ b.get_regions pid,
      S ≠ [] ∧ (∀ x ∈ S, ∀ d, d ∈ S ↔ b.Reach pid x d)) ∧
    (∀ x : Coord, (∃ S ∈ b.get_regions pid, x ∈ S) ↔ b.ownerAt x = some pid) ∧
    List.Pairwise (fun S1 S2 => ∀ x ∈ S1, x ∉ S2) (b.get_regions pid) := by
  have hts : ∀ h ∈ b.get_territory pid, h ∈ b.hexes ∧ h.owner = some pid := by
    intro h hh
    unfold Board.get_territory at hh
    rw [List.mem_filter] at hh
    exact ⟨hh.1, of_decide_eq_true hh.2⟩
  obtain ⟨g1, g2, g3⟩ := getRegionsLoop_spec b pid hwf (b.get_territory pid) [] hts
    (by intro x hx; cases hx)
  have hgr : b.get_regions pid = b.getRegionsLoop (b.get_territory pid) [] := rfl
  rw [hgr]
  refine ⟨?_, ?_, g3⟩
  · intro S hS
    obtain ⟨⟨h, hhm, hho, rfl⟩, _⟩ := g1 S hS
    have hregmem := mem_get_region_iff b hwf h pid hhm hho
    have hself : h.coord ∈ b.get_region h :=
      (hregmem _).mpr (Board.Reach.refl ⟨h, b.getC_of_mem hwf h hhm, hho⟩)
    refine ⟨?_, ?_⟩
    · intro hnil
      rw [hnil] at hself
      cases hself
    · intro x hx d
      have hrx : b.Reach pid h.coord x := (hregmem x).mp hx
      rw [hregmem d]
      constructor
      · intro hrd
        exact Board.Reach.trans (Board.Reach.symm b hwf hrx) hrd
      · intro hrd
        exact Board.Reach.trans hrx hrd
  · intro x
    constructor
    · rintro ⟨S, hS, hxS⟩
      obtain ⟨⟨h, hhm, hho, rfl⟩, _⟩ := g1 S hS
      have hrx := (mem_get_region_iff b hwf h pid hhm hho x).mp hxS
      obtain ⟨hx, hgx, hox⟩ := Board.Reach.target_owned b hwf hrx
      unfold Board.ownerAt
      rw [hgx]
      exact hox
    · intro hox
      unfold Board.ownerAt at hox
      rcases hgx : b.getC x with _ | hx
      · rw [hgx] at hox
        cases hox
      · rw [hgx] at hox
        obtain ⟨hcoord, hmemx⟩ := b.getC_eq_some x hx hgx
        have hterr : hx ∈ b.get_territory pid := by
          unfold Board.get_territory
          rw [List.mem_filter]
          refine ⟨hmemx, ?_⟩
          have hox2 : hx.owner = some pid := hox
          simp [hox2]
        rcases g2 hx hterr with hin | ⟨S, hS, hxin⟩
        · cases hin
        · exact ⟨S, hS, hcoord ▸ hxin⟩

/-! ## Gold carry-over of `Player.update_regions` -/

/-- Spec-side characterization of the gold clause of C5: total gold of the
previous regions that share at least one hex with the new region's hexes. -/
def goldSharedSpec (old : List Region) (cs : List Coord) : Int :=
  ((old.filter (fun r => r.hexes.any (fun c => decide (c ∈ cs)))).map Region.gold).sum

/-- Indexed variant of `goldSharedSpec` that also skips the already seen old
regions, matching the loop state of `sumOldGoldLoop`. -/
def goldScanSum (entries : List (Nat × Region)) (seen : List Nat) (cs : List Coord) :
    Int :=
  ((entries.filter (fun e => decide (e.1 ∉ seen) &&
    e.2.hexes.any (fun c => decide (c ∈ cs)))).map (fun e => e.2.gold)).sum

theorem bool_eq_of_iff {a b : Bool} (h : a = true ↔ b = true) : a = b := by
  cases a <;> cases b <;> simp_all

theorem any_mem_cons_of_not_mem {hexes : List Coord} {c : Coord} (cs : List Coord)
    (hc : c ∉ hexes) :
    hexes.any (fun x => decide (x ∈ c :: cs)) = hexes.any (fun x => decide (x ∈ cs)) := by
  apply bool_eq_of_iff
  simp only [List.any_eq_true, decide_eq_true_eq]
  constructor
  · rintro ⟨x, hx, hxm⟩
    rcases List.mem_cons.mp hxm with rfl | hxm'
    · exact absurd hx hc
    · exact ⟨x, hx, hxm'⟩
  · rintro ⟨x, hx, hxm⟩
    exact ⟨x, hx, List.mem_cons_of_mem c hxm⟩

theorem decide_not_mem_cons_of_ne {i j : Nat} (seen : List Nat) (hne : i ≠ j) :
    decide (i ∉ j :: seen) = decide (i ∉ seen) := by
  apply bool_eq_of_iff
  simp [List.mem_cons, hne]

theorem goldScanSum_nil (entries : List (Nat × Region)) (seen : List Nat) :
    goldScanSum entries seen [] = 0 := by
  induction entries with
  | nil => rfl
  | cons a es ih =>
    unfold goldScanSum
    rw [List.filter_cons]
    have hp : (decide (a.1 ∉ seen) &&
        a.2.hexes.any (fun c => decide (c ∈ ([] : List Coord)))) = false := by
      simp
    rw [hp]
    simp only [Bool.false_eq_true, if_false]
    exact ih

theorem goldScanSum_find_none (entries : List (Nat × Region)) (seen : List Nat)
    (c : Coord) (cs : List Coord)
    (hf : entries.find? (fun e => decide (c ∈ e.2.hexes) && decide (e.1 ∉ seen)) = none) :
    goldScanSum entries seen (c :: cs) = goldScanSum entries seen cs := by
  have hall := List.find?_eq_none.mp hf
  unfold goldScanSum
  have hfe : entries.filter (fun e => decide (e.1 ∉ seen) &&
        e.2.hexes.any (fun x => decide (x ∈ c :: cs)))
      = entries.filter (fun e => decide (e.1 ∉ seen) &&
        e.2.hexes.any (fun x => decide (x ∈ cs))) := by
    apply List.filter_congr
    intro e he
    have hne : ¬(c ∈ e.2.hexes ∧ e.1 ∉ seen) := by simpa using hall e he
    by_cases hseen : e.1 ∈ seen
    · simp [hseen]
    · have hc : c ∉ e.2.hexes := fun hcc => hne ⟨hcc, hseen⟩
      rw [any_mem_cons_of_not_mem cs hc]
  rw [hfe]

theorem goldScanSum_find_some (seen : List Nat) (c : Coord) (cs : List Coord) :
    ∀ (entries : List (Nat × Region)) (e0 : Nat × Region),
      (entries.map Prod.fst).Nodup →
      List.Pairwise (fun a b => ∀ x ∈ a.2.hexes, x ∉ b.2.hexes) entries →
      entries.find? (fun e => decide (c ∈ e.2.hexes) && decide (e.1 ∉ seen)) = some e0 →
      goldScanSum entries seen (c :: cs) =
        e0.2.gold + goldScanSum entries (e0.1 :: seen) cs := by
  intro entries
  induction entries with
  | nil =>
    intro e0 _ _ hf
    cases hf
  | cons a es ih =>
    intro e0 hnd hdisj hf
    rw [List.find?_cons] at hf
    rw [List.map_cons, List.nodup_cons] at hnd
    rw [List.pairwise_cons] at hdisj
    by_cases hpa : (decide (c ∈ a.2.hexes) && decide (a.1 ∉ seen)) = true
    · rw [hpa] at hf
      dsimp only at hf
      injection hf with hfe
      subst hfe
      rw [Bool.and_eq_true, decide_eq_true_eq, decide_eq_true_eq] at hpa
      unfold goldScanSum
      rw [List.filter_cons, List.filter_cons]
      have hL : (decide (a.1 ∉ seen) &&
          a.2.hexes.any (fun x => decide (x ∈ c :: cs))) = true := by
        rw [Bool.and_eq_true]
        refine ⟨by simpa using hpa.2, ?_⟩
        simp only [List.any_eq_true, decide_eq_true_eq]
        exact ⟨c, hpa.1, List.mem_cons_self c cs⟩
      have hR : (decide (a.1 ∉ a.1 :: seen) &&
          a.2.hexes.any (fun x => decide (x ∈ cs))) = false := by
        simp [List.mem_cons]
      rw [hL, hR]
      simp only [if_true, Bool.false_eq_true, if_false, List.map_cons, List.sum_cons]
      congr 1
      have hfe2 : es.filter (fun e => decide (e.1 ∉ seen) &&
            e.2.hexes.any (fun x => decide (x ∈ c :: cs)))
          = es.filter (fun e => decide (e.1 ∉ a.1 :: seen) &&
            e.2.hexes.any (fun x => decide (x ∈ cs))) := by
        apply List.filter_congr
        intro e he
        have hcne : c ∉ e.2.hexes := hdisj.1 e he c hpa.1
        have hne1 : e.1 ≠ a.1 := by
          intro hEq
          exact hnd.1 (hEq ▸ List.mem_map_of_mem Prod.fst he)
        rw [any_mem_cons_of_not_mem cs hcne, decide_not_mem_cons_of_ne seen hne1]
      rw [hfe2]
    · rw [bool_eq_false hpa] at hf
      dsimp only at hf
      have he0 : e0 ∈ es := List.mem_of_find?_eq_some hf
      have hpa' : ¬(c ∈ a.2.hexes ∧ a.1 ∉ seen) := by
        intro hcp
        exact hpa (by simp [hcp.1, hcp.2])
      have hne0 : a.1 ≠ e0.1 := by
        intro hEq
        exact hnd.1 (hEq ▸ List.mem_map_of_mem Prod.fst he0)
      have hhead : (decide (a.1 ∉ seen) &&
            a.2.hexes.any (fun x => decide (x ∈ c :: cs)))
          = (decide (a.1 ∉ e0.1 :: seen) &&
            a.2.hexes.any (fun x => decide (x ∈ cs))) := by
        by_cases hseen : a.1 ∈ seen
        · have e1 : decide (a.1 ∉ seen) = false := by simp [hseen]
          have e2 : decide (a.1 ∉ e0.1 :: seen) = false := by
            simp [List.mem_cons, hseen]
          rw [e1, e2]
          simp
        · have hca : c ∉ a.2.hexes := fun hcc => hpa' ⟨hcc, hseen⟩
          rw [any_mem_cons_of_not_mem cs hca, decide_not_mem_cons_of_ne seen hne0]
      unfold goldScanSum
      rw [List.filter_cons, List.filter_cons, hhead]
      cases hv : (decide (a.1 ∉ e0.1 :: seen) &&
          a.2.hexes.any (fun x => decide (x ∈ cs))) with
      | false =>
        simp only [Bool.false_eq_true, if_false]
        exact ih e0 hnd.2 hdisj.2 hf
      | true =>
        simp only [if_true, List.map_cons, List.sum_cons]
        have hihere := ih e0 hnd.2 hdisj.2 hf
        unfold goldScanSum at hihere
        rw [hihere]
        ring

theorem enum_map_fst_nodup (old : List Region) : (old.enum.map Prod.fst).Nodup := by
  rw [List.enum_map_fst]
  exact List.nodup_range _

theorem pairwise_enumFrom_snd {α : Type} {R : α → α → Prop} :
    ∀ (l : List α), List.Pairwise R l →
      ∀ n, List.Pairwise (fun a b : Nat × α => R a.2 b.2) (List.enumFrom n l) := by
  intro l
  induction l with
  | nil =>
    intro _ n
    exact List.Pairwise.nil
  | cons a l ihl =>
    intro h n
    rw [List.pairwise_cons] at h
    simp only [List.enumFrom]
    refine List.Pairwise.cons ?_ (ihl h.2 (n + 1))
    intro b hb
    have hb2 : b.2 ∈ l := by
      have hmap := List.enumFrom_map_snd (n + 1) l
      rw [← hmap]
      exact List.mem_map_of_mem Prod.snd hb
    exact h.1 b.2 hb2

theorem pairwise_enum_snd (old : List Region)
    (h : List.Pairwise (fun r1 r2 : Region => ∀ x ∈ r1.hexes, x ∉ r2.hexes) old) :
    List.Pairwise (fun a b : Nat × Region => ∀ x ∈ a.2.hexes, x ∉ b.2.hexes) old.enum :=
  pairwise_enumFrom_snd old h 0

theorem goldScanSum_enumFrom_eq (cs : List Coord) :
    ∀ (old : List Region) (n : Nat),
      goldScanSum (List.enumFrom n old) [] cs = goldSharedSpec old cs := by
  intro old
  induction old with
  | nil =>
    intro n
    rfl
  | cons r old ihn =>
    intro n
    unfold goldScanSum goldSharedSpec
    simp only [List.enumFrom]
    rw [List.filter_cons, List.filter_cons]
    have hL : (decide ((n, r).1 ∉ ([] : List Nat)) &&
        (n, r).2.hexes.any (fun x => decide (x ∈ cs)))
        = r.hexes.any (fun x => decide (x ∈ cs)) := by
      simp
    rw [hL]
    cases hv : r.hexes.any (fun x => decide (x ∈ cs)) with
    | false =>
      simp only [Bool.false_eq_true, if_false]
      exact ihn (n + 1)
    | true =>
      simp only [if_true, List.map_cons, List.sum_cons]
      have hihere := ihn (n + 1)
      unfold goldScanSum goldSharedSpec at hihere
      rw [hihere]

theorem goldScanSum_enum_eq (old : List Region) (cs : List Coord) :
    goldScanSum old.enum [] cs = goldSharedSpec old cs :=
  goldScanSum_enumFrom_eq cs old 0

/-- The gold-preservation scan sums the gold of exactly the not-yet-seen old
regions meeting the new region's hexes, provided the old regions are pairwise
disjoint. -/
theorem sumOldGoldLoop_spec (old : List Region)
    (hdisj : List.Pairwise (fun r1 r2 : Region => ∀ x ∈ r1.hexes, x ∉ r2.hexes) old) :
    ∀ (cs : List Coord) (seen : List Nat) (acc : Int),
      sumOldGoldLoop old cs seen acc = acc + goldScanSum old.enum seen cs := by
  have hnd := enum_map_fst_nodup old
  have hdisj' := pairwise_enum_snd old hdisj
  intro cs
  induction cs with
  | nil =>
    intro seen acc
    unfold sumOldGoldLoop
    rw [goldScanSum_nil]
    omega
  | cons c cs ih =>
    intro seen acc
    unfold sumOldGoldLoop
    cases hf : old.enum.find? (fun e => decide (c ∈ e.2.hexes) && decide (e.1 ∉ seen)) with
    | none =>
      dsimp only
      rw [ih seen acc, goldScanSum_find_none old.enum seen c cs hf]
    | some e0 =>
      dsimp only
      rw [ih (e0.1 :: seen) (acc + e0.2.gold),
        goldScanSum_find_some seen c cs old.enum e0 hnd hdisj' hf]
      ring

/-- Top-level gold clause: starting from empty seen-set and zero accumulator,
the scan computes the C5 gold characterization. -/
theorem sumOldGoldLoop_eq_goldShared (old : List Region)
    (hdisj : List.Pairwise (fun r1 r2 : Region => ∀ x ∈ r1.hexes, x ∉ r2.hexes) old)
    (cs : List Coord) :
    sumOldGoldLoop old cs [] 0 = goldSharedSpec old cs := by
  rw [sumOldGoldLoop_spec old hdisj cs [] 0, goldScanSum_enum_eq]
  omega

theorem map_hexes_regions (g : List Coord → Region) (hg : ∀ s, (g s).hexes = s) :
    ∀ sets : List (List Coord), (sets.map g).map Region.hexes = sets := by
  intro sets
  induction sets with
  | nil => rfl
  | cons s ss ih =>
    simp only [List.map_cons, hg, ih]

/-- C5: region recomputation produces one region per connected component of
the player's territory, with a capital exactly on components of two or more
hexes, gold carried over as the capped sum of the intersecting old regions'
gold, and the new regions pairwise disjoint and covering exactly the
territory. -/
theorem region_recomputation (p : Player) (b : Board) (hwf : b.WF)
    (hdisj : List.Pairwise (fun r1 r2 : Region => ∀ c ∈ r1.hexes, c ∉ r2.hexes)
      p.regions) :
    ((p.update_regions b).regions.map Region.hexes = b.get_regions p.id) ∧
    (∀ r ∈ (p.update_regions b).regions,
      r.has_capital = decide (r.hexes.length ≥ 2) ∧
      r.gold = min (goldSharedSpec p.regions r.hexes) r.max_gold ∧
      r.hexes ≠ [] ∧
      (∀ c ∈ r.hexes, ∀ d, d ∈ r.hexes ↔ b.Reach p.id c d)) ∧
    List.Pairwise (fun r1 r2 : Region => ∀ c ∈ r1.hexes, c ∉ r2.hexes)
      (p.update_regions b).regions ∧
    (∀ c : Coord, (∃ r ∈ (p.update_regions b).regions, c ∈ r.hexes) ↔
      b.ownerAt c = some p.id) := by
  obtain ⟨k1, k2, k3⟩ := get_regions_spec b p.id hwf
  have hreg : (p.update_regions b).regions = (b.get_regions p.id).map
      (fun s =>
        { hexes := s
          has_capital := decide (s.length ≥ 2)
          gold := min (sumOldGoldLoop p.regions s [] 0)
            (Region.max_gold { hexes := s, has_capital := decide (s.length ≥ 2) }) }) :=
    rfl
  refine ⟨?_, ?_, ?_, ?_⟩
  · rw [hreg]
    exact map_hexes_regions _ (fun s => rfl) _
  · intro r hr
    rw [hreg, List.mem_map] at hr
    obtain ⟨s, hs, rfl⟩ := hr
    obtain ⟨hne, hcomp⟩ := k1 s hs
    refine ⟨rfl, ?_, hne, hcomp⟩
    show min (sumOldGoldLoop p.regions s [] 0)
      (Region.max_gold { hexes := s, has_capital := decide (s.length ≥ 2) }) = _
    rw [sumOldGoldLoop_eq_goldShared p.regions hdisj s]
    rfl
  · rw [hreg, List.pairwise_map]
    exact k3.imp (fun h => h)
  · intro c
    rw [← k2 c]
    constructor
    · rintro ⟨r, hr, hc⟩
      rw [hreg, List.mem_map] at hr
      obtain ⟨s, hs, rfl⟩ := hr
      exact ⟨s, hs, hc⟩
    · rintro ⟨s, hs, hc⟩
      rw [hreg]
      exact ⟨_, List.mem_map_of_mem _ hs, hc⟩

def c5hA : Hex := { q := 0, r := 0, owner := some 0 }

def c5hB : Hex := { q := 1, r := 0, owner := some 0 }

def c5hC : Hex := { q := 2, r := 0, owner := some 0 }

def c5hD : Hex := { q := 3, r := 0, owner := some 1 }

def c5hE : Hex := { q := 4, r := 0, owner := some 0 }

def c5board : Board := { width := 5, height := 1, hexes := [c5hA, c5hB, c5hC, c5hD, c5hE] }

def c5player : Player :=
  { id := 0, regions :=
      [{ hexes := [(0, 0)], has_capital := false, gold := 5 },
       { hexes := [(1, 0)], has_capital := false, gold := 7 },
       { hexes := [(4, 0)], has_capital := false, gold := 3 }] }

theorem region_recomputation_witness :
    c5board.WF ∧
    List.Pairwise (fun r1 r2 : Region => ∀ c ∈ r1.hexes, c ∉ r2.hexes)
      c5player.regions ∧
    (((c5player.update_regions c5board).regions.map Region.hexes =
        c5board.get_regions c5player.id) ∧
      (∀ r ∈ (c5player.update_regions c5board).regions,
        r.has_capital = decide (r.hexes.length ≥ 2) ∧
        r.gold = min (goldSharedSpec c5player.regions r.hexes) r.max_gold ∧
        r.hexes ≠ [] ∧
        (∀ c ∈ r.hexes, ∀ d, d ∈ r.hexes ↔ c5board.Reach c5player.id c d)) ∧
      List.Pairwise (fun r1 r2 : Region => ∀ c ∈ r1.hexes, c ∉ r2.hexes)
        (c5player.update_regions c5board).regions ∧
      (∀ c : Coord, (∃ r ∈ (c5player.update_regions c5board).regions, c ∈ r.hexes) ↔
        c5board.ownerAt c = some c5player.id)) :=
  ⟨by show (c5board.hexes.map Hex.coord).Nodup; decide, by decide,
    region_recomputation c5player c5board
      (by show (c5board.hexes.map Hex.coord).Nodup; decide) (by decide)⟩

/-! ## Serialization round-trip (C8) -/

theorem list_map_id_of_mem {α : Type} (f : α → α) :
    ∀ l : List α, (∀ a ∈ l, f a = a) → l.map f = l := by
  intro l
  induction l with
  | nil =>
    intro _
    rfl
  | cons a t ih =>
    intro h
    rw [List.map_cons, h a (List.mem_cons_self a t),
      ih (fun x hx => h x (List.mem_cons_of_mem a hx))]

theorem foldl_min_mem :
    ∀ (rest : List Coord) (acc : Coord),
      rest.foldl (fun acc x => if coordLexLt x acc then x else acc) acc ∈ acc :: rest := by
  intro rest
  induction rest with
  | nil =>
    intro acc
    exact List.mem_singleton.mpr rfl
  | cons x xs ih =>
    intro acc
    rw [List.foldl_cons]
    by_cases hlt : coordLexLt x acc = true
    · rw [if_pos hlt]
      rcases List.mem_cons.mp (ih x) with h | h
      · rw [h]
        exact List.mem_cons_of_mem _ (List.mem_cons_self x xs)
      · exact List.mem_cons_of_mem _ (List.mem_cons_of_mem _ h)
    · rw [if_neg hlt]
      rcases List.mem_cons.mp (ih acc) with h | h
      · rw [h]
        exact List.mem_cons_self acc (x :: xs)
      · exact List.mem_cons_of_mem _ (List.mem_cons_of_mem _ h)

theorem minCoord_mem (l : List Coord) (c : Coord) (h : minCoord l = some c) : c ∈ l := by
  match l with
  | [] => cases h
  | a :: rest =>
    injection h with h
    rw [← h]
    exact foldl_min_mem rest a

theorem minCoord_isSome (l : List Coord) (hne : l ≠ []) :
    ∃ c, minCoord l = some c ∧ c ∈ l := by
  match l with
  | [] => exact absurd rfl hne
  | a :: rest =>
    refine ⟨_, rfl, ?_⟩
    exact foldl_min_mem rest a

/-- `Unit.from_dict` inverts `Unit.to_dict` (the derived strength is
recomputed). -/
theorem unit_to_dict_from_dict (u : GameUnit) : GameUnit.from_dict u.to_dict = u := rfl

theorem board_hexes_roundtrip (g : Coord → Bool) :
    ∀ l : List Hex,
      ((l.map (fun h => (h.coord, h.to_dict))).map
          (fun e => (e.1, { e.2 with has_capital := g e.1 }))).map
        (fun e =>
          ({ q := e.1.1
             r := e.1.2
             terrain := e.2.terrain
             owner := e.2.owner
             unit := e.2.unit.map GameUnit.from_dict } : Hex)) = l := by
  intro l
  induction l with
  | nil => rfl
  | cons h t ih =>
    rw [List.map_cons, List.map_cons, List.map_cons, ih]
    congr 1
    cases h with
    | mk q r terrain owner unit =>
      cases unit with
      | none => rfl
      | some u => rfl

/-- `Board.from_dict` inverts `Board.to_dict`, also through the per-hex
capital decoration added by `GameState.to_dict` (which `from_dict`
ignores). -/
theorem board_from_dict_decorated (b : Board) (g : Coord → Bool) :
    Board.from_dict
      { b.to_dict with
        hexes := b.to_dict.hexes.map
          (fun e => (e.1, { e.2 with has_capital := g e.1 })) } = b := by
  unfold Board.from_dict Board.to_dict
  dsimp only
  rw [board_hexes_roundtrip g b.hexes]

theorem find?_region_gold (rep : Coord) (r0 : Region) :
    ∀ (regs : List Region),
      r0 ∈ regs →
      minCoord r0.hexes = some rep →
      List.Pairwise (fun a b : Region => ∀ x ∈ a.hexes, x ∉ b.hexes) regs →
      (∀ r ∈ regs, r.hexes ≠ []) →
      (regs.filterMap (fun r =>
        match minCoord r.hexes with
        | some rp => some (rp, r.gold)
        | none => none)).find? (fun e => e.1 = rep) = some (rep, r0.gold) := by
  intro regs
  induction regs with
  | nil =>
    intro h
    cases h
  | cons a rs ih =>
    intro hmem hrep hdisj hne
    rw [List.pairwise_cons] at hdisj
    obtain ⟨repA, hrepA, hrepAmem⟩ := minCoord_isSome a.hexes (hne a (List.mem_cons_self a rs))
    rw [List.filterMap_cons, hrepA]
    dsimp only
    rcases List.mem_cons.mp hmem with rfl | hmem'
    · rw [hrepA] at hrep
      injection hrep with hEq
      subst hEq
      rw [List.find?_cons]
      have hp : (decide (((repA, r0.gold) : Coord × Int).1 = repA)) = true := by simp
      rw [hp]
    · have hrepmem : rep ∈ r0.hexes := minCoord_mem r0.hexes rep hrep
      have hneq : repA ≠ rep := by
        intro hEq
        exact hdisj.1 r0 hmem' repA hrepAmem (hEq ▸ hrepmem)
      rw [List.find?_cons]
      have hp : (decide (((repA, a.gold) : Coord × Int).1 = rep)) = false := by
        simp [hneq]
      rw [hp]
      dsimp only
      exact ih hmem' hrep hdisj.2 (fun r hr => hne r (List.mem_cons_of_mem a hr))

/-- `Player.from_dict` inverts `Player.to_dict` whenever the player's region
list is the board's region partition with size-correct capitals (the state
invariant maintained by `update_regions`). -/
theorem player_to_dict_from_dict (b : Board) (hwf : b.WF) (p : Player)
    (hsync : b.get_regions p.id = p.regions.map Region.hexes)
    (hcap : ∀ r ∈ p.regions, r.has_capital = decide (r.hexes.length ≥ 2)) :
    Player.from_dict p.to_dict b = p := by
  obtain ⟨k1, _, k3⟩ := get_regions_spec b p.id hwf
  have hdisj : List.Pairwise (fun r1 r2 : Region => ∀ x ∈ r1.hexes, x ∉ r2.hexes)
      p.regions := by
    rw [hsync] at k3
    exact List.pairwise_map.mp k3
  have hne : ∀ r ∈ p.regions, r.hexes ≠ [] := by
    intro r hr
    refine (k1 r.hexes ?_).1
    rw [hsync]
    exact List.mem_map_of_mem Region.hexes hr
  obtain ⟨pid, pel, pregs⟩ := p
  dsimp only at hsync hcap hdisj hne ⊢
  unfold Player.from_dict Player.update_regions Player.to_dict
  dsimp only
  rw [hsync, List.map_map, List.map_map]
  simp only [Player.mk.injEq]
  refine ⟨trivial, trivial, ?_⟩
  apply list_map_id_of_mem
  intro r0 hr0
  dsimp only [Function.comp]
  obtain ⟨rep, hrep, _⟩ := minCoord_isSome r0.hexes (hne r0 hr0)
  rw [hrep]
  dsimp only
  rw [find?_region_gold rep r0 pregs hr0 hrep hdisj hne]
  dsimp only
  obtain ⟨r0h, r0c, r0g⟩ := r0
  have hc := hcap _ hr0
  dsimp only at hc ⊢
  rw [← hc]

/-- C8: `GameState.from_dict` inverts `GameState.to_dict` on every state
whose players' region lists are in sync with the board (the invariant
`update_regions` maintains): board terrain/owner/units, players, regions,
per-region gold, turn and current player are all reproduced exactly. -/
theorem serialization_roundtrip (s : GState) (hwf : s.board.WF)
    (hsync : ∀ p ∈ s.players, s.board.get_regions p.id = p.regions.map Region.hexes)
    (hcap : ∀ p ∈ s.players, ∀ r ∈ p.regions,
      r.has_capital = decide (r.hexes.length ≥ 2)) :
    GState.from_dict s.to_dict = s := by
  unfold GState.from_dict GState.to_dict
  dsimp only
  rw [board_from_dict_decorated s.board
    (fun c => decide (c ∈ s.players.flatMap (fun p => p.regions.filterMap Region.capital_hex)))]
  rw [List.map_map]
  rw [list_map_id_of_mem ((fun pd => Player.from_dict pd s.board) ∘ Player.to_dict)
    s.players (fun p hp => player_to_dict_from_dict s.board hwf p (hsync p hp) (hcap p hp))]

def c8hA : Hex := { q := 0, r := 0, owner := some 0, unit := some ⟨UnitType.castle, 0, false⟩ }

def c8hB : Hex := { q := 1, r := 0, owner := some 0, unit := some ⟨UnitType.peasant, 0, true⟩ }

def c8hC : Hex := { q := 2, r := 0, terrain := Terrain.tree }

def c8board : Board := { width := 3, height := 1, hexes := [c8hA, c8hB, c8hC] }

def c8state : GState :=
  { board := c8board
    players := [{ id := 0, regions := [{ hexes := [(1, 0), (0, 0)], has_capital := true, gold := 12 }] }]
    current_player_idx := 0
    turn := 5
    tree_growth_enabled := false
    tree_spread_threshold := 3 }

theorem serialization_roundtrip_witness :
    c8state.board.WF ∧
    (∀ p ∈ c8state.players, c8state.board.get_regions p.id = p.regions.map Region.hexes) ∧
    (∀ p ∈ c8state.players, ∀ r ∈ p.regions,
      r.has_capital = decide (r.hexes.length ≥ 2)) ∧
    GState.from_dict c8state.to_dict = c8state :=
  ⟨by show (c8state.board.hexes.map Hex.coord).Nodup; decide, by decide, by decide,
    serialization_roundtrip c8state
      (by show (c8state.board.hexes.map Hex.coord).Nodup; decide) (by decide) (by decide)⟩

/-! ## Start-of-turn maintenance deaths (C3) -/

/-- The per-hex kill applied to a dying territory (unit leaves a grave,
ownership is cleared). -/
def killHexUpdate (h : Hex) : Hex :=
  if h.unit.isSome then { h with terrain := Terrain.grave, unit := none, owner := none }
  else { h with owner := none }

theorem killHexUpdate_preserves : PreservesCoord killHexUpdate := by
  intro h
  unfold killHexUpdate
  split <;> exact ⟨rfl, rfl⟩

theorem killRegionHexes_getC_not_mem :
    ∀ (hexes : List Coord) (b : Board) (c : Coord), c ∉ hexes →
      (killRegionHexes b hexes).getC c = b.getC c := by
  intro hexes
  induction hexes with
  | nil =>
    intro b c _
    rfl
  | cons x rest ih =>
    intro b c hc
    have hl : killRegionHexes b (x :: rest) =
        killRegionHexes (b.setAt x killHexUpdate) rest := rfl
    rw [hl, ih _ c (fun h => hc (List.mem_cons_of_mem x h))]
    exact Board.getC_setAt_ne b x _ c killHexUpdate_preserves
      (fun hEq => hc (hEq ▸ List.mem_cons_self x rest))

theorem killRegionHexes_getC_mem :
    ∀ (hexes : List Coord) (b : Board) (c : Coord), hexes.Nodup → c ∈ hexes →
      (killRegionHexes b hexes).getC c = (b.getC c).map killHexUpdate := by
  intro hexes
  induction hexes with
  | nil =>
    intro b c _ hc
    cases hc
  | cons x rest ih =>
    intro b c hnd hc
    rw [List.nodup_cons] at hnd
    have hl : killRegionHexes b (x :: rest) =
        killRegionHexes (b.setAt x killHexUpdate) rest := rfl
    rw [hl]
    rcases List.mem_cons.mp hc with rfl | hc'
    · rw [killRegionHexes_getC_not_mem rest _ c hnd.1]
      exact Board.getC_setAt_self b c killHexUpdate killHexUpdate_preserves
    · rw [ih _ c hnd.2 hc',
        Board.getC_setAt_ne b x killHexUpdate c killHexUpdate_preserves
          (fun hEq => hnd.1 (hEq ▸ hc'))]

theorem list_map_congr_mem {α β : Type} (f g : α → β) :
    ∀ l : List α, (∀ a ∈ l, f a = g a) → l.map f = l.map g := by
  intro l
  induction l with
  | nil =>
    intro _
    rfl
  | cons a t ih =>
    intro h
    rw [List.map_cons, List.map_cons, h a (List.mem_cons_self a t),
      ih (fun x hx => h x (List.mem_cons_of_mem a hx))]

theorem get_upkeep_congr (r : Region) (b b2 : Board)
    (h : ∀ c ∈ r.hexes, b2.getC c = b.getC c) : r.get_upkeep b2 = r.get_upkeep b := by
  rw [get_upkeep_eq_sum, get_upkeep_eq_sum]
  unfold sumUpkeepList
  have hup : ∀ c ∈ r.hexes, b2.upkeepAt c = b.upkeepAt c := by
    intro c hc
    unfold Board.upkeepAt Board.unitAt
    rw [h c hc]
  rw [list_map_congr_mem _ _ r.hexes hup]

/-- The step function of the `for region in self.regions:` loop of
`check_territory_maintenance`. -/
def maintStep (st : Board × List Region × List MaintenanceDeath) (region : Region) :
    Board × List Region × List MaintenanceDeath :=
  let territory_cost := region.get_territory_maintenance
  let unit_upkeep := region.get_upkeep st.1
  let total_cost := territory_cost + unit_upkeep
  if region.gold < total_cost then
    (killRegionHexes st.1 region.hexes, st.2.1,
     st.2.2 ++ [{ region_size := region.hexes.length, hexes := region.hexes,
                  needed := total_cost, had := region.gold }])
  else
    (st.1, st.2.1 ++ [region], st.2.2)

theorem check_territory_maintenance_eq (p : Player) (b : Board) :
    p.check_territory_maintenance b =
      ({ p with regions := (p.regions.foldl maintStep (b, [], [])).2.1 },
       (p.regions.foldl maintStep (b, [], [])).1,
       (p.regions.foldl maintStep (b, [], [])).2.2) := rfl

/-- Invariant proof for the maintenance fold: with pairwise-disjoint,
duplicate-free regions whose hexes still read as on the original board, the
fold keeps exactly the affordable regions, reports each dying region, kills
every hex of the dying regions and touches nothing else. -/
theorem maintFold_spec (borig : Board) :
    ∀ (regs : List Region) (bcur : Board) (kept : List Region)
      (deaths : List MaintenanceDeath),
      (∀ reg ∈ regs, ∀ c ∈ reg.hexes, bcur.getC c = borig.getC c) →
      List.Pairwise (fun r1 r2 : Region => ∀ c ∈ r1.hexes, c ∉ r2.hexes) regs →
      (∀ reg ∈ regs, reg.hexes.Nodup) →
      ((regs.foldl maintStep (bcur, kept, deaths)).2.1 =
        kept ++ regs.filter (fun reg =>
          !decide (reg.gold < reg.get_territory_maintenance + reg.get_upkeep borig))) ∧
      ((regs.foldl maintStep (bcur, kept, deaths)).2.2 =
        deaths ++ (regs.filter (fun reg =>
          decide (reg.gold < reg.get_territory_maintenance + reg.get_upkeep borig))).map
          (fun reg =>
            { region_size := reg.hexes.length
              hexes := reg.hexes
              needed := reg.get_territory_maintenance + reg.get_upkeep borig
              had := reg.gold })) ∧
      (∀ c : Coord, (∀ reg ∈ regs,
          reg.gold < reg.get_territory_maintenance + reg.get_upkeep borig →
          c ∉ reg.hexes) →
        (regs.foldl maintStep (bcur, kept, deaths)).1.getC c = bcur.getC c) ∧
      (∀ reg ∈ regs, reg.gold < reg.get_territory_maintenance + reg.get_upkeep borig →
        ∀ c ∈ reg.hexes,
          (regs.foldl maintStep (bcur, kept, deaths)).1.getC c =
            (borig.getC c).map killHexUpdate) := by
  intro regs
  induction regs with
  | nil =>
    intro bcur kept deaths _ _ _
    refine ⟨by simp, by simp, ?_, ?_⟩
    · intro c _
      rfl
    · intro reg hreg
      cases hreg
  | cons a rs ih =>
    intro bcur kept deaths hag hdisj hnd
    rw [List.pairwise_cons] at hdisj
    have huk : a.get_upkeep bcur = a.get_upkeep borig :=
      get_upkeep_congr a borig bcur (hag a (List.mem_cons_self a rs))
    have hagrs : ∀ reg ∈ rs, ∀ c ∈ reg.hexes, bcur.getC c = borig.getC c :=
      fun reg hreg => hag reg (List.mem_cons_of_mem a hreg)
    have hndrs : ∀ reg ∈ rs, reg.hexes.Nodup :=
      fun reg hreg => hnd reg (List.mem_cons_of_mem a hreg)
    rw [List.foldl_cons]
    by_cases hdie : a.gold < a.get_territory_maintenance + a.get_upkeep borig
    · have hstep : maintStep (bcur, kept, deaths) a =
          (killRegionHexes bcur a.hexes, kept, deaths ++
            [{ region_size := a.hexes.length
               hexes := a.hexes
               needed := a.get_territory_maintenance + a.get_upkeep borig
               had := a.gold }]) := by
        unfold maintStep
        dsimp only
        rw [huk, if_pos hdie]
      rw [hstep]
      have hag' : ∀ reg ∈ rs, ∀ c ∈ reg.hexes,
          (killRegionHexes bcur a.hexes).getC c = borig.getC c := by
        intro reg hreg c hc
        have hca : c ∉ a.hexes := fun hca => hdisj.1 reg hreg c hca hc
        rw [killRegionHexes_getC_not_mem a.hexes bcur c hca]
        exact hagrs reg hreg c hc
      obtain ⟨g1, g2, g3, g4⟩ := ih (killRegionHexes bcur a.hexes) kept
        (deaths ++ [_]) hag' hdisj.2 hndrs
      refine ⟨?_, ?_, ?_, ?_⟩
      · rw [g1, List.filter_cons]
        have hcnd : (!decide (a.gold <
            a.get_territory_maintenance + a.get_upkeep borig)) = false := by
          simp [hdie]
        rw [hcnd]
        simp
      · rw [g2, List.filter_cons]
        have hcnd : (decide (a.gold <
            a.get_territory_maintenance + a.get_upkeep borig)) = true := by
          simp [hdie]
        rw [hcnd]
        simp
      · intro c hc
        have hca : c ∉ a.hexes := hc a (List.mem_cons_self a rs) hdie
        rw [g3 c (fun reg hreg hd => hc reg (List.mem_cons_of_mem a hreg) hd)]
        exact killRegionHexes_getC_not_mem a.hexes bcur c hca
      · intro reg hreg hd c hc
        rcases List.mem_cons.mp hreg with rfl | hreg'
        · have hcrs : ∀ reg' ∈ rs,
              reg'.gold < reg'.get_territory_maintenance + reg'.get_upkeep borig →
              c ∉ reg'.hexes :=
            fun reg' hreg' _ => hdisj.1 reg' hreg' c hc
          rw [g3 c hcrs,
            killRegionHexes_getC_mem reg.hexes bcur c (hnd reg (List.mem_cons_self reg rs)) hc,
            hag reg (List.mem_cons_self reg rs) c hc]
        · exact g4 reg hreg' hd c hc
    · have hstep : maintStep (bcur, kept, deaths) a = (bcur, kept ++ [a], deaths) := by
        unfold maintStep
        dsimp only
        rw [huk, if_neg hdie]
      rw [hstep]
      obtain ⟨g1, g2, g3, g4⟩ := ih bcur (kept ++ [a]) deaths hagrs hdisj.2 hndrs
      refine ⟨?_, ?_, ?_, ?_⟩
      · rw [g1, List.filter_cons]
        have hcnd : (!decide (a.gold <
            a.get_territory_maintenance + a.get_upkeep borig)) = true := by
          simp [hdie]
        rw [hcnd]
        simp
      · rw [g2, List.filter_cons]
        have hcnd : (decide (a.gold <
            a.get_territory_maintenance + a.get_upkeep borig)) = false := by
          simp [hdie]
        rw [hcnd]
        simp
      · intro c hc
        exact g3 c (fun reg hreg hd => hc reg (List.mem_cons_of_mem a hreg) hd)
      · intro reg hreg hd c hc
        rcases List.mem_cons.mp hreg with rfl | hreg'
        · exact absurd hd hdie
        · exact g4 reg hreg' hd c hc

def c3hA : Hex := { q := 0, r := 0, owner := some 0, unit := some ⟨UnitType.castle, 0, false⟩ }

def c3hB : Hex := { q := 1, r := 0, owner := some 0, unit := some ⟨UnitType.peasant, 0, false⟩ }

def c3hC : Hex := { q := 2, r := 0, owner := some 0 }

def c3board : Board := { width := 3, height := 1, hexes := [c3hA, c3hB, c3hC] }

def c3player : Player :=
  { id := 0, regions := [{ hexes := [(0, 0), (1, 0), (2, 0)], has_capital := true, gold := 0 }] }

def c3state : GState :=
  { board := c3board
    players := [c3player]
    current_player_idx := 0
    turn := 2
    tree_growth_enabled := false
    tree_spread_threshold := 2 }

/-- C3: the start-of-turn maintenance check kills in full exactly the
regions whose gold is below territory maintenance plus unit upkeep —
ownership cleared everywhere, units replaced by graves, the region removed
and reported with its needed/had gold, all other hexes untouched; and the
3-hex castle-plus-peasant region with 0 gold (needed 2 + 2 = 4) dies in full
during `GameState.start_turn`, with its gold still unspent (`had = 0`)
because the region dies before any upkeep is paid. -/
theorem territory_maintenance_deaths (p : Player) (b : Board)
    (hdisj : List.Pairwise (fun r1 r2 : Region => ∀ c ∈ r1.hexes, c ∉ r2.hexes)
      p.regions)
    (hnd : ∀ reg ∈ p.regions, reg.hexes.Nodup) :
    ((p.check_territory_maintenance b).1.regions = p.regions.filter (fun reg =>
      !decide (reg.gold < reg.get_territory_maintenance + reg.get_upkeep b))) ∧
    ((p.check_territory_maintenance b).2.2 = (p.regions.filter (fun reg =>
      decide (reg.gold < reg.get_territory_maintenance + reg.get_upkeep b))).map
      (fun reg =>
        { region_size := reg.hexes.length
          hexes := reg.hexes
          needed := reg.get_territory_maintenance + reg.get_upkeep b
          had := reg.gold })) ∧
    (∀ reg ∈ p.regions, reg.gold < reg.get_territory_maintenance + reg.get_upkeep b →
      ∀ c ∈ reg.hexes,
        (p.check_territory_maintenance b).2.1.ownerAt c = none ∧
        (p.check_territory_maintenance b).2.1.getC c = (b.getC c).map killHexUpdate) ∧
    (∀ c : Coord, (∀ reg ∈ p.regions,
        reg.gold < reg.get_territory_maintenance + reg.get_upkeep b → c ∉ reg.hexes) →
      (p.check_territory_maintenance b).2.1.getC c = b.getC c) ∧
    ((c3state.start_turn.2.maintenance_deaths =
        [{ player := 0, region_size := 3, hexes := [(0, 0), (1, 0), (2, 0)],
           needed := 4, had := 0 }]) ∧
      c3state.start_turn.1.players.map Player.regions = [[]] ∧
      c3state.start_turn.1.board.ownerAt (0, 0) = none ∧
      c3state.start_turn.1.board.ownerAt (1, 0) = none ∧
      c3state.start_turn.1.board.ownerAt (2, 0) = none ∧
      c3state.start_turn.1.board.terrainAt (0, 0) = some Terrain.grave ∧
      c3state.start_turn.1.board.terrainAt (1, 0) = some Terrain.grave ∧
      c3state.start_turn.1.board.terrainAt (2, 0) = some Terrain.land ∧
      c3state.start_turn.1.board.unitAt (0, 0) = none ∧
      c3state.start_turn.1.board.unitAt (1, 0) = none) := by
  obtain ⟨g1, g2, g3, g4⟩ := maintFold_spec b p.regions b [] []
    (fun reg _ c _ => rfl) hdisj hnd
  rw [check_territory_maintenance_eq]
  dsimp only
  refine ⟨by rw [g1]; simp, by rw [g2]; simp, ?_, g3, ?_⟩
  · intro reg hreg hd c hc
    have hgc := g4 reg hreg hd c hc
    refine ⟨?_, hgc⟩
    unfold Board.ownerAt
    rw [hgc]
    cases hbc : b.getC c with
    | none => rfl
    | some h =>
      simp only [Option.map_some']
      unfold killHexUpdate
      split <;> rfl
  · exact ⟨by decide, by decide, by decide, by decide, by decide, by decide,
      by decide, by decide, by decide, by decide⟩

theorem territory_maintenance_deaths_witness :
    List.Pairwise (fun r1 r2 : Region => ∀ c ∈ r1.hexes, c ∉ r2.hexes)
      c3player.regions ∧
    (∀ reg ∈ c3player.regions, reg.hexes.Nodup) ∧
    (((c3player.check_territory_maintenance c3board).1.regions =
        c3player.regions.filter (fun reg =>
          !decide (reg.gold <
            reg.get_territory_maintenance + reg.get_upkeep c3board))) ∧
      ((c3player.check_territory_maintenance c3board).2.2 =
        (c3player.regions.filter (fun reg =>
          decide (reg.gold <
            reg.get_territory_maintenance + reg.get_upkeep c3board))).map
          (fun reg =>
            { region_size := reg.hexes.length
              hexes := reg.hexes
              needed := reg.get_territory_maintenance + reg.get_upkeep c3board
              had := reg.gold })) ∧
      (∀ reg ∈ c3player.regions,
        reg.gold < reg.get_territory_maintenance + reg.get_upkeep c3board →
        ∀ c ∈ reg.hexes,
          (c3player.check_territory_maintenance c3board).2.1.ownerAt c = none ∧
          (c3player.check_territory_maintenance c3board).2.1.getC c =
            (c3board.getC c).map killHexUpdate) ∧
      (∀ c : Coord, (∀ reg ∈ c3player.regions,
          reg.gold < reg.get_territory_maintenance + reg.get_upkeep c3board →
          c ∉ reg.hexes) →
        (c3player.check_territory_maintenance c3board).2.1.getC c = c3board.getC c) ∧
      ((c3state.start_turn.2.maintenance_deaths =
          [{ player := 0, region_size := 3, hexes := [(0, 0), (1, 0), (2, 0)],
             needed := 4, had := 0 }]) ∧
        c3state.start_turn.1.players.map Player.regions = [[]] ∧
        c3state.start_turn.1.board.ownerAt (0, 0) = none ∧
        c3state.start_turn.1.board.ownerAt (1, 0) = none ∧
        c3state.start_turn.1.board.ownerAt (2, 0) = none ∧
        c3state.start_turn.1.board.terrainAt (0, 0) = some Terrain.grave ∧
        c3state.start_turn.1.board.terrainAt (1, 0) = some Terrain.grave ∧
        c3state.start_turn.1.board.terrainAt (2, 0) = some Terrain.land ∧
        c3state.start_turn.1.board.unitAt (0, 0) = none ∧
        c3state.start_turn.1.board.unitAt (1, 0) = none)) :=
  ⟨by decide, by decide,
    territory_maintenance_deaths c3player c3board (by decide) (by decide)⟩

end Yals
